import Mathlib

/-!
Verification of the cutter-cube-scrambler two-phase (Kociemba-style) solver core.

This file shallowly embeds the TypeScript sources:
  * `src/core/cubie.ts`   - cube state, move application, composition, inversion, validation
  * `src/core/moves.ts`   - the six generator face turns and the derived 18-move table
  * `src/core/notation.ts`- move-key string inversion helpers used by the solver
  * the two versions of `solver/kociemba/coordinates.ts` present in the repository
    (one with a 5-valued E-slice coordinate, one with the 495-valued combinatorial one)
  * `solver/kociemba/pruning.ts`  - BFS pruning-table construction
  * `solver/kociemba/ida.ts`      - the phase 1 / phase 2 IDA* searches
  * `solver/kociemba/solver.ts`   - solver orchestration

Mutating TypeScript functions (the coordinate setters) are modelled by state
passing: they take the cube and return the updated cube.  JavaScript arrays are
modelled as `List Nat`; reads use `List.getD` (in-range for every use exercised
by the theorems below) and out-of-range writes with `List.set` are dropped,
matching `Uint8Array` stores.  Wall-clock readings (`Date.now()`) only flow into
the `timeMs` statistics fields; they are passed in as explicit parameters.
-/

namespace CCS

/-- Cube state from `cubie.ts`: `cPerm[i]`/`ePerm[i]` is the corner/edge sitting
at slot `i`; `cOri`/`eOri` are the twists and flips at each slot. -/
structure Cube where
  cPerm : List Nat
  cOri : List Nat
  ePerm : List Nat
  eOri : List Nat
deriving DecidableEq

/-- A face-turn operator from `cubie.ts`: `cornerPerm[i]` is the slot that
supplies the corner landing in slot `i`, and similarly for edges. -/
structure MoveTable where
  cornerPerm : List Nat
  cornerOriDelta : List Nat
  edgePerm : List Nat
  edgeOriDelta : List Nat
deriving DecidableEq

/-- `solvedCube()` from `cubie.ts`. -/
def solvedCube : Cube :=
  { cPerm := [0, 1, 2, 3, 4, 5, 6, 7]
    cOri := [0, 0, 0, 0, 0, 0, 0, 0]
    ePerm := [0, 1, 2, 3, 4, 5, 6, 7, 8, 9, 10, 11]
    eOri := [0, 0, 0, 0, 0, 0, 0, 0, 0, 0, 0, 0] }

/-- `applyMove` from `cubie.ts` (out of place). -/
def applyMove (cube : Cube) (move : MoveTable) : Cube :=
  { cPerm := (List.range 8).map (fun i => cube.cPerm.getD (move.cornerPerm.getD i 0) 0)
    cOri := (List.range 8).map
      (fun i => (cube.cOri.getD (move.cornerPerm.getD i 0) 0 + move.cornerOriDelta.getD i 0) % 3)
    ePerm := (List.range 12).map (fun i => cube.ePerm.getD (move.edgePerm.getD i 0) 0)
    eOri := (List.range 12).map
      (fun i => (cube.eOri.getD (move.edgePerm.getD i 0) 0) ^^^ (move.edgeOriDelta.getD i 0)) }

/-- `composeMoves` from `cubie.ts`: `result = move2(move1(cube))` (as written there). -/
def composeMoves (move1 move2 : MoveTable) : MoveTable :=
  { cornerPerm := (List.range 8).map
      (fun i => move2.cornerPerm.getD (move1.cornerPerm.getD i 0) 0)
    cornerOriDelta := (List.range 8).map
      (fun i => (move1.cornerOriDelta.getD i 0 +
        move2.cornerOriDelta.getD (move1.cornerPerm.getD i 0) 0) % 3)
    edgePerm := (List.range 12).map
      (fun i => move2.edgePerm.getD (move1.edgePerm.getD i 0) 0)
    edgeOriDelta := (List.range 12).map
      (fun i => (move1.edgeOriDelta.getD i 0) ^^^
        (move2.edgeOriDelta.getD (move1.edgePerm.getD i 0) 0)) }

/-- `invertMove` from `cubie.ts`: the writes `result[move.cornerPerm[i]] = ...`
are modelled by folding `List.set` over the indices. -/
def invertMove (move : MoveTable) : MoveTable :=
  { cornerPerm := (List.range 8).foldl
      (fun acc i => acc.set (move.cornerPerm.getD i 0) i) (List.replicate 8 0)
    cornerOriDelta := (List.range 8).foldl
      (fun acc i => acc.set (move.cornerPerm.getD i 0) ((3 - move.cornerOriDelta.getD i 0) % 3))
      (List.replicate 8 0)
    edgePerm := (List.range 12).foldl
      (fun acc i => acc.set (move.edgePerm.getD i 0) i) (List.replicate 12 0)
    edgeOriDelta := (List.range 12).foldl
      (fun acc i => acc.set (move.edgePerm.getD i 0) (move.edgeOriDelta.getD i 0))
      (List.replicate 12 0) }

/-- `cubesEqual` from `cubie.ts`. -/
def cubesEqual (cube1 cube2 : Cube) : Bool :=
  cube1.cPerm == cube2.cPerm && cube1.cOri == cube2.cOri &&
  cube1.ePerm == cube2.ePerm && cube1.eOri == cube2.eOri

/-- `isSolved` from `cubie.ts`. -/
def isSolved (cube : Cube) : Bool :=
  cubesEqual cube solvedCube

/-- `isValidPermutation` from `cubie.ts`: length `n`, all entries in `[0, n)`,
and no entry seen twice. -/
def isValidPermutation (perm : List Nat) (n : Nat) : Bool :=
  perm.length == n && perm.all (fun v => decide (v < n)) && decide perm.Nodup

/-- The inner `while (!seen[j])` walk of `parityOfPermutation`, with explicit
fuel; one cycle marks at most `perm.length` fresh slots, so the caller passes
`perm.length` as fuel and never hits the cutoff on a valid permutation. -/
def parityWalk (perm : List Nat) : Nat → List Bool → Nat → Nat → List Bool × Nat
  | 0, seen, _, cycleLength => (seen, cycleLength)
  | fuel + 1, seen, j, cycleLength =>
    if seen.getD j false then (seen, cycleLength)
    else parityWalk perm fuel (seen.set j true) (perm.getD j 0) (cycleLength + 1)

/-- `parityOfPermutation` from `cubie.ts`: xor of `(cycleLength + 1) & 1` over
the cycles found by the seen-array walk. -/
def parityOfPermutation (perm : List Nat) : Nat :=
  let n := perm.length
  ((List.range n).foldl (fun (st : Nat × List Bool) i =>
    if st.2.getD i false then st
    else
      let w := parityWalk perm n st.2 i 0
      if 0 < w.2 then ((st.1 ^^^ ((w.2 + 1) % 2)), w.1) else (st.1, w.1))
    (0, List.replicate n false)).1

/-- `isValidCube` from `cubie.ts`: valid permutations, matching permutation
parities, orientation sums divisible by 3 resp. 2, and orientation ranges. -/
def isValidCube (cube : Cube) : Bool :=
  isValidPermutation cube.cPerm 8 &&
  isValidPermutation cube.ePerm 12 &&
  (parityOfPermutation cube.cPerm == parityOfPermutation cube.ePerm) &&
  ((cube.cOri.foldl (· + ·) 0) % 3 == 0) &&
  ((cube.eOri.foldl (· + ·) 0) % 2 == 0) &&
  !(cube.cOri.any (fun ori => decide (2 < ori))) &&
  !(cube.eOri.any (fun ori => decide (1 < ori)))

/-- The `U` generator from `moves.ts`. -/
def moveU : MoveTable :=
  { cornerPerm := [3, 0, 1, 2, 4, 5, 6, 7]
    cornerOriDelta := [0, 0, 0, 0, 0, 0, 0, 0]
    edgePerm := [3, 0, 1, 2, 4, 5, 6, 7, 8, 9, 10, 11]
    edgeOriDelta := [0, 0, 0, 0, 0, 0, 0, 0, 0, 0, 0, 0] }

/-- The `R` generator from `moves.ts`. -/
def moveR : MoveTable :=
  { cornerPerm := [4, 1, 2, 0, 7, 5, 6, 3]
    cornerOriDelta := [2, 0, 0, 1, 1, 0, 0, 2]
    edgePerm := [8, 1, 2, 3, 11, 5, 6, 7, 4, 9, 10, 0]
    edgeOriDelta := [0, 0, 0, 0, 0, 0, 0, 0, 0, 0, 0, 0] }

/-- The `F` generator from `moves.ts`. -/
def moveF : MoveTable :=
  { cornerPerm := [1, 5, 2, 3, 0, 4, 6, 7]
    cornerOriDelta := [1, 2, 0, 0, 2, 1, 0, 0]
    edgePerm := [0, 9, 2, 3, 4, 8, 6, 7, 1, 5, 10, 11]
    edgeOriDelta := [0, 1, 0, 0, 0, 1, 0, 0, 1, 1, 0, 0] }

/-- The `D` generator from `moves.ts`. -/
def moveD : MoveTable :=
  { cornerPerm := [0, 1, 2, 3, 5, 6, 7, 4]
    cornerOriDelta := [0, 0, 0, 0, 0, 0, 0, 0]
    edgePerm := [0, 1, 2, 3, 5, 6, 7, 4, 8, 9, 10, 11]
    edgeOriDelta := [0, 0, 0, 0, 0, 0, 0, 0, 0, 0, 0, 0] }

/-- The `L` generator from `moves.ts`. -/
def moveL : MoveTable :=
  { cornerPerm := [0, 2, 6, 3, 4, 1, 5, 7]
    cornerOriDelta := [0, 1, 2, 0, 0, 2, 1, 0]
    edgePerm := [0, 1, 10, 3, 4, 5, 9, 7, 8, 2, 6, 11]
    edgeOriDelta := [0, 0, 0, 0, 0, 0, 0, 0, 0, 0, 0, 0] }

/-- The `B` generator from `moves.ts`.  Unlike the other five faces its edge
permutation is a pair of swaps (`UB↔BL`, `DB↔BR`) rather than a four-cycle,
and its corner permutation is a four-cycle; the table is embedded exactly as
`createBMove` writes it. -/
def moveB : MoveTable :=
  { cornerPerm := [0, 1, 3, 6, 4, 5, 7, 2]
    cornerOriDelta := [0, 0, 1, 2, 0, 0, 2, 1]
    edgePerm := [0, 1, 2, 10, 4, 5, 6, 11, 8, 9, 3, 7]
    edgeOriDelta := [0, 0, 0, 1, 0, 0, 0, 1, 0, 0, 1, 1] }

/-- `ALL_MOVES.U2 = composeMoves(U, U)` and analogues from `moves.ts`. -/
def moveU2 : MoveTable := composeMoves moveU moveU

def moveUp : MoveTable := invertMove moveU

def moveR2 : MoveTable := composeMoves moveR moveR

def moveRp : MoveTable := invertMove moveR

def moveF2 : MoveTable := composeMoves moveF moveF

def moveFp : MoveTable := invertMove moveF

def moveD2 : MoveTable := composeMoves moveD moveD

def moveDp : MoveTable := invertMove moveD

def moveL2 : MoveTable := composeMoves moveL moveL

def moveLp : MoveTable := invertMove moveL

def moveB2 : MoveTable := composeMoves moveB moveB

def moveBp : MoveTable := invertMove moveB

/-- The 18-entry move array in the `MOVE_KEYS` index order of `moves.ts`. -/
def MOVE_TABLES : List MoveTable :=
  [moveU, moveU2, moveUp, moveR, moveR2, moveRp, moveF, moveF2, moveFp,
   moveD, moveD2, moveDp, moveL, moveL2, moveLp, moveB, moveB2, moveBp]

/-- `MOVE_KEYS` from `moves.ts`. -/
def MOVE_KEYS : List String :=
  ["U", "U2", "Up", "R", "R2", "Rp", "F", "F2", "Fp",
   "D", "D2", "Dp", "L", "L2", "Lp", "B", "B2", "Bp"]

/-- `getMoveByIndex` from `moves.ts` (`ALL_MOVES[MOVE_KEYS[index]]`). -/
def getMoveByIndex (index : Nat) : MoveTable :=
  MOVE_TABLES.getD index moveU

/-- `getMoveByKey` from `moves.ts`. -/
def getMoveByKey (key : String) : MoveTable :=
  ((MOVE_KEYS.zip MOVE_TABLES).lookup key).getD moveU

/-- `invertMoveKey` from `notation.ts`. -/
def invertMoveKey (move : String) : String :=
  if move.endsWith "p" then move.dropRight 1
  else if move.endsWith "2" then move
  else move ++ "p"

/-- `invertMoveSequence` from `notation.ts`: reverse and invert each key. -/
def invertMoveSequence (moves : List String) : List String :=
  moves.reverse.map invertMoveKey

/-- `binomial` from `coordinates.ts` (exact at every intermediate step, so the
floating-point `Math.floor` is the identity and `Nat` division is faithful). -/
def binomial (n k : Nat) : Nat :=
  if n < k then 0
  else if k == 0 || k == n then 1
  else (List.range k).foldl (fun result i => result * (n - i) / (i + 1)) 1

/-- `permutationToIndex` from `coordinates.ts`: Lehmer rank.  Generic in the
entry type because `getESlicePermutation` feeds it JavaScript numbers that can
be negative on non-G1 cubes. -/
def permutationToIndex {α : Type} [Inhabited α] [LT α]
    [DecidableRel ((· < ·) : α → α → Prop)] (perm : List α) : Nat :=
  let n := perm.length
  let fact0 := (List.range n).foldl (fun acc i => acc * (i + 1)) 1
  ((List.range n).foldl (fun (st : Nat × Nat) i =>
    let fact := st.2 / (n - i)
    let rank := ((perm.drop (i + 1)).filter (fun x => decide (x < perm.getD i default))).length
    (st.1 + rank * fact, fact)) (0, fact0)).1

/-- The in-place shift in `indexToPermutation`'s loop body: move the element at
`i + rank` to position `i`, shifting positions `i .. i+rank-1` one to the right. -/
def rotateToFront (perm : List Nat) (i rank : Nat) : List Nat :=
  perm.take i ++ [perm.getD (i + rank) 0] ++ ((perm.drop i).take rank) ++ perm.drop (i + rank + 1)

/-- `indexToPermutation` from `coordinates.ts`. -/
def indexToPermutation (index n : Nat) : List Nat :=
  ((List.range n).foldl (fun (st : List Nat × Nat × Nat) i =>
    let fact := st.2.2 / (n - i)
    let rank := st.2.1 / fact
    (rotateToFront st.1 i rank, st.2.1 % fact, fact))
    (List.range n, index, (List.range n).foldl (fun acc i => acc * (i + 1)) 1)).1

/-- `getEdgeOrientation` (identical in both versions of `coordinates.ts`). -/
def getEdgeOrientation (cube : Cube) : Nat :=
  (List.range 11).foldl (fun coord i => (coord <<< 1) ||| cube.eOri.getD i 0) 0

/-- `setEdgeOrientation`: writes bits at slots `10 .. 0` and the parity bit at 11. -/
def setEdgeOrientation (cube : Cube) (coord : Nat) : Cube :=
  let st := (List.range 11).reverse.foldl
    (fun (st : List Nat × Nat × Nat) i =>
      (st.1.set i (st.2.2 &&& 1), st.2.1 ^^^ (st.2.2 &&& 1), st.2.2 >>> 1))
    (cube.eOri, 0, coord)
  { cube with eOri := st.1.set 11 st.2.1 }

/-- `getCornerOrientation` (identical in both versions of `coordinates.ts`). -/
def getCornerOrientation (cube : Cube) : Nat :=
  (List.range 7).foldl (fun coord i => coord * 3 + cube.cOri.getD i 0) 0

/-- `setCornerOrientation`: base-3 digits at slots `6 .. 0`, slot 7 fixes the sum. -/
def setCornerOrientation (cube : Cube) (coord : Nat) : Cube :=
  let st := (List.range 7).reverse.foldl
    (fun (st : List Nat × Nat × Nat) i =>
      (st.1.set i (st.2.2 % 3), (st.2.1 + st.2.2 % 3) % 3, st.2.2 / 3))
    (cube.cOri, 0, coord)
  { cube with cOri := st.1.set 7 ((3 - st.2.1) % 3) }

/-- `getCornerPermutation` (identical in both versions of `coordinates.ts`). -/
def getCornerPermutation (cube : Cube) : Nat :=
  permutationToIndex cube.cPerm

/-- `setCornerPermutation`. -/
def setCornerPermutation (cube : Cube) (coord : Nat) : Cube :=
  { cube with cPerm := indexToPermutation coord 8 }

/-- The body of `buildCoordinateMoveTable` (identical in both versions of
`coordinates.ts`): the table entry at `[moveIdx][coord]` is the coordinate of
the cube obtained by decoding `coord` into a solved cube and applying the move. -/
def buildCoordinateMoveTableEntry (getCoord : Cube → Nat) (setCoord : Cube → Nat → Cube)
    (moveIdx coord : Nat) : Nat :=
  getCoord (applyMove (setCoord solvedCube coord) (getMoveByIndex moveIdx))

namespace Coords5

/-! The coordinate module at `src/src/solver/kociemba/coordinates.ts`, whose
E-slice coordinate counts misplaced E-slice edges (`ESLICE_SIZE = 5`) with
E-slice edges `DR,DF,DL,DB = 4,5,6,7` and slice positions `4..7`. -/

def ESLICE_SIZE : Nat := 5

def E_EDGES : List Nat := [4, 5, 6, 7]

/-- `getESlice` (5-valued version): the number of E-slice edges whose position
(`ePerm.indexOf`) lies outside `[4, 8)`. -/
def getESlice (cube : Cube) : Nat :=
  (List.range 4).foldl (fun misplacedCount i =>
    let edge := E_EDGES.getD i 0
    let position := cube.ePerm.findIdx (fun x => x == edge)
    if position < 4 || 8 ≤ position then misplacedCount + 1 else misplacedCount) 0

/-- `setESlice` (5-valued version). -/
def setESlice (cube : Cube) (coord : Nat) : Cube :=
  if coord == 0 then
    let e0 := (List.range 4).foldl (fun e i => e.set (4 + i) (E_EDGES.getD i 0)) cube.ePerm
    { cube with ePerm := e0 }
  else
    let e1 := (List.range (min coord 4)).foldl
      (fun e i => e.set i (E_EDGES.getD i 0)) cube.ePerm
    let e2 := (List.range' coord (4 - coord)).foldl
      (fun e i => e.set (4 + i) (E_EDGES.getD i 0)) e1
    { cube with ePerm := e2 }

end Coords5

namespace Coords495

/-! The coordinate module of the `part_003` source file (the version the
`pruning.ts` and `ida.ts` modules import from): `ESLICE_SIZE = 495`,
E-slice edges `FR,FL,BL,BR = 8,9,10,11` in slice positions `8..11`,
`UDEP_SIZE = 40320`. -/

def EO_SIZE : Nat := 2048

def CO_SIZE : Nat := 2187

def ESLICE_SIZE : Nat := 495

def CP_SIZE : Nat := 40320

def UDEP_SIZE : Nat := 40320

def EP_SIZE : Nat := 24

def E_EDGES : List Nat := [8, 9, 10, 11]

/-- `getESlice` (495-valued version): scan slots `11 .. 0`, add `binomial i r`
for each slot holding an E-slice edge while decrementing `r` from 4, and return
`494 - coord`. -/
def getESlice (cube : Cube) : Nat :=
  494 - ((List.range 12).reverse.foldl (fun (st : Nat × Nat) i =>
    if 8 ≤ cube.ePerm.getD i 0 then (st.1 + binomial i st.2, st.2 - 1) else st) (0, 4)).1

/-- `setESlice` (495-valued version): reset all edges to 0, then mark the slice
slots selected by the combinatorial decomposition of `494 - rawCoord`. -/
def setESlice (cube : Cube) (rawCoord : Nat) : Cube :=
  let coord := 494 - rawCoord
  let st := (List.range 12).reverse.foldl (fun (st : List Nat × Nat × Nat) i =>
    if binomial i st.2.1 ≤ st.2.2 then
      (st.1.set i (8 + (4 - st.2.1)), st.2.1 - 1, st.2.2 - binomial i st.2.1)
    else (st.1.set i 0, st.2.1, st.2.2))
    (List.replicate 12 0, 4, coord)
  { cube with ePerm := st.1 }

/-- `getUDEdgePermutation` (40320-valued version): the function ultimately
returns `permutationToIndex(cube.ePerm.slice(0, 8))`; the earlier scan in the
source writes to a local `perm` array that is never read. -/
def getUDEdgePermutation (cube : Cube) : Nat :=
  permutationToIndex (cube.ePerm.take 8)

/-- `setUDEdgePermutation`: write the decoded permutation into slots `0 .. 7`. -/
def setUDEdgePermutation (cube : Cube) (coord : Nat) : Cube :=
  { cube with ePerm := indexToPermutation coord 8 ++ cube.ePerm.drop 8 }

/-- `getESlicePermutation`: ranks `[ePerm[8]-8, .., ePerm[11]-8]`.  JavaScript
subtraction can go negative on non-G1 cubes, hence the `Int` entries. -/
def getESlicePermutation (cube : Cube) : Nat :=
  permutationToIndex ((List.range 4).map (fun i => (cube.ePerm.getD (8 + i) 0 : Int) - 8))

/-- `setESlicePermutation`: slot `8+i` receives `E_EDGES[perm[i]]`. -/
def setESlicePermutation (cube : Cube) (coord : Nat) : Cube :=
  let perm := indexToPermutation coord 4
  let e0 := (List.range 4).foldl
    (fun e i => e.set (8 + i) (E_EDGES.getD (perm.getD i 0) 0)) cube.ePerm
  { cube with ePerm := e0 }

/-- `isInG1` from `part_003`: all edges oriented and every E-slice edge among
the contents of slots `8 .. 11`. -/
def isInG1 (cube : Cube) : Bool :=
  ((List.range 12).all (fun i => cube.eOri.getD i 0 == 0)) &&
  (E_EDGES.all (fun edge =>
    (([8, 9, 10, 11] : List Nat).map (fun pos => cube.ePerm.getD pos 0)).contains edge))

end Coords495

/-- `Phase1Coord` from `coordinates.ts`. -/
structure Phase1Coord where
  eo : Nat
  co : Nat
  eslice : Nat
deriving DecidableEq

/-- `Phase2Coord` from `coordinates.ts`. -/
structure Phase2Coord where
  cp : Nat
  udep : Nat
  ep : Nat
deriving DecidableEq

/-- `getPhase1Coord` (using the `part_003` coordinate set that the solver imports). -/
def getPhase1Coord (cube : Cube) : Phase1Coord :=
  { eo := getEdgeOrientation cube
    co := getCornerOrientation cube
    eslice := Coords495.getESlice cube }

/-- `getPhase2Coord` (using the `part_003` coordinate set that the solver imports). -/
def getPhase2Coord (cube : Cube) : Phase2Coord :=
  { cp := getCornerPermutation cube
    udep := Coords495.getUDEdgePermutation cube
    ep := Coords495.getESlicePermutation cube }

/-! ### Pruning tables (`pruning.ts`)

`PruningTable` is a `Uint8Array` initialised to the unknown sentinel 255;
`set` clamps stored distances at `MAX_DISTANCE = 20`; out-of-range stores are
dropped and out-of-range reads never compare equal to 255, as in JavaScript. -/

/-- The `while (head < queue.length)` loop of `buildPruningTable`.  Every
enqueue first flips a 255 entry to a value `≤ 20`, so at most `size` coordinates
are ever enqueued and fuel `size + 1` outer iterations reach the real loop exit. -/
def buildPruningLoop (applyMoveFunc : Nat → Nat → Nat) (allowedMoves : List Nat) :
    Nat → List Nat → List Nat → Nat → List Nat
  | 0, table, _, _ => table
  | fuel + 1, table, queue, head =>
    if head < queue.length then
      let currentCoord := queue.getD head 0
      let currentDistance := table.getD currentCoord 0
      if 19 ≤ currentDistance then
        buildPruningLoop applyMoveFunc allowedMoves fuel table queue (head + 1)
      else
        let st := allowedMoves.foldl (fun (st : List Nat × List Nat) moveIdx =>
          let nextCoord := applyMoveFunc currentCoord moveIdx
          if st.1.getD nextCoord 0 == 255 then
            (st.1.set nextCoord (min (currentDistance + 1) 20), st.2 ++ [nextCoord])
          else st) (table, queue)
        buildPruningLoop applyMoveFunc allowedMoves fuel st.1 st.2 (head + 1)
    else table

/-- `buildPruningTable` from `pruning.ts`: BFS from `goalCoord` over the
coordinate move graph, labelling each discovered value with `min (d + 1) 20`
and skipping expansion of nodes whose stored distance is at least 19. -/
def buildPruningTable (size : Nat) (applyMoveFunc : Nat → Nat → Nat)
    (goalCoord : Nat) (allowedMoves : List Nat) : List Nat :=
  let table0 := (List.replicate size 255).set goalCoord (min 0 20)
  buildPruningLoop applyMoveFunc allowedMoves (size + 1) table0 [goalCoord] 0

/-! ### IDA* search (`ida.ts`)

The searches read the process-wide move tables and pruning tables through
`applyMoveToEO`, `phase1Heuristic`, and friends; those module-level globals are
passed in explicitly as a record of functions. -/

/-- `PHASE1_MOVES` from `ida.ts`. -/
def PHASE1_MOVES : List Nat := List.range 18

/-- `PHASE2_MOVES` from `ida.ts`. -/
def PHASE2_MOVES : List Nat := [0, 1, 2, 9, 10, 11, 4, 13, 7, 16]

/-- The module-level tables consulted by the phase-1 search. -/
structure Phase1Tables where
  heuristic : Nat → Nat → Nat → Nat
  applyEO : Nat → Nat → Nat
  applyCO : Nat → Nat → Nat
  applyESlice : Nat → Nat → Nat

/-- The module-level tables consulted by the phase-2 search. -/
structure Phase2Tables where
  heuristic : Nat → Nat → Nat → Nat
  applyCP : Nat → Nat → Nat
  applyUDEP : Nat → Nat → Nat
  applyEP : Nat → Nat → Nat

/-- `shouldSkipMove` from `ida.ts`: skip when the face (`idx / 3`) repeats;
`lastMove = -1` is modelled as `none`.  The `allowedMoves` parameter is unused
in the source as well. -/
def shouldSkipMove (moveIdx : Nat) (lastMove : Option Nat) (allowedMoves : List Nat) : Bool :=
  match lastMove with
  | none => false
  | some lm => moveIdx / 3 == lm / 3

/-- `SearchResult` from `ida.ts`. -/
structure SearchResult where
  solution : List Nat
  depth : Nat
  nodesSearched : Nat
  timeMs : Nat
deriving DecidableEq

/-- `searchPhase1Depth` from `ida.ts`, with structural fuel: callers pass
`fuel = depth - currentDepth`, and the `cur ≥ depth` guard fires before the
fuel could ever run out, so the `fuel = 0` fallback is unreachable. -/
def searchPhase1Depth (T : Phase1Tables) (fuel : Nat) (coord : Phase1Coord)
    (depth currentDepth : Nat) (lastMove : Option Nat) : Option (List Nat) × Nat :=
  if coord.eo == 0 && coord.eslice == 0 then (some [], 1)
  else
    let heuristic := T.heuristic coord.eo coord.co coord.eslice
    if depth < currentDepth + heuristic then (none, 1)
    else if depth ≤ currentDepth then (none, 1)
    else
      match fuel with
      | 0 => (none, 1)
      | fuel' + 1 =>
        PHASE1_MOVES.foldl (fun (st : Option (List Nat) × Nat) moveIdx =>
          match st.1 with
          | some _ => st
          | none =>
            if shouldSkipMove moveIdx lastMove PHASE1_MOVES then st
            else
              let nextCoord : Phase1Coord :=
                ⟨T.applyEO coord.eo moveIdx, T.applyCO coord.co moveIdx,
                 T.applyESlice coord.eslice moveIdx⟩
              let r := searchPhase1Depth T fuel' nextCoord depth (currentDepth + 1) (some moveIdx)
              match r.1 with
              | some sol => (some (moveIdx :: sol), st.2 + r.2)
              | none => (none, st.2 + r.2)) (none, 1)

/-- `searchPhase1` from `ida.ts`: returns immediately when `eo` and `eslice`
are both zero (the `co` component is not consulted), otherwise iteratively
deepens from `max 1 heuristic` to `maxDepth`. -/
def searchPhase1 (T : Phase1Tables) (startCoord : Phase1Coord) (maxDepth : Nat)
    (timeMs : Nat) : Option SearchResult :=
  if startCoord.eo == 0 && startCoord.eslice == 0 then
    some { solution := [], depth := 0, nodesSearched := 0, timeMs := timeMs }
  else
    let heuristic := T.heuristic startCoord.eo startCoord.co startCoord.eslice
    let depths := List.range' (max 1 heuristic) (maxDepth + 1 - max 1 heuristic)
    let final := depths.foldl (fun (st : Option (List Nat × Nat) × Nat) depth =>
      match st.1 with
      | some _ => st
      | none =>
        let r := searchPhase1Depth T depth startCoord depth 0 none
        match r.1 with
        | some sol => (some (sol, depth), st.2 + r.2)
        | none => (none, st.2 + r.2)) (none, 0)
    match final.1 with
    | some (sol, depth) =>
      some { solution := sol, depth := depth, nodesSearched := final.2, timeMs := timeMs }
    | none => none

/-- `searchPhase2Depth` from `ida.ts` (goal: all three components zero;
moves restricted to `PHASE2_MOVES`). -/
def searchPhase2Depth (T : Phase2Tables) (fuel : Nat) (coord : Phase2Coord)
    (depth currentDepth : Nat) (lastMove : Option Nat) : Option (List Nat) × Nat :=
  if coord.cp == 0 && coord.udep == 0 && coord.ep == 0 then (some [], 1)
  else
    let heuristic := T.heuristic coord.cp coord.udep coord.ep
    if depth < currentDepth + heuristic then (none, 1)
    else if depth ≤ currentDepth then (none, 1)
    else
      match fuel with
      | 0 => (none, 1)
      | fuel' + 1 =>
        PHASE2_MOVES.foldl (fun (st : Option (List Nat) × Nat) moveIdx =>
          match st.1 with
          | some _ => st
          | none =>
            if shouldSkipMove moveIdx lastMove PHASE2_MOVES then st
            else
              let nextCoord : Phase2Coord :=
                ⟨T.applyCP coord.cp moveIdx, T.applyUDEP coord.udep moveIdx,
                 T.applyEP coord.ep moveIdx⟩
              let r := searchPhase2Depth T fuel' nextCoord depth (currentDepth + 1) (some moveIdx)
              match r.1 with
              | some sol => (some (moveIdx :: sol), st.2 + r.2)
              | none => (none, st.2 + r.2)) (none, 1)

/-- `searchPhase2` from `ida.ts`. -/
def searchPhase2 (T : Phase2Tables) (startCoord : Phase2Coord) (maxDepth : Nat)
    (timeMs : Nat) : Option SearchResult :=
  if startCoord.cp == 0 && startCoord.udep == 0 && startCoord.ep == 0 then
    some { solution := [], depth := 0, nodesSearched := 0, timeMs := timeMs }
  else
    let heuristic := T.heuristic startCoord.cp startCoord.udep startCoord.ep
    let depths := List.range' (max 1 heuristic) (maxDepth + 1 - max 1 heuristic)
    let final := depths.foldl (fun (st : Option (List Nat × Nat) × Nat) depth =>
      match st.1 with
      | some _ => st
      | none =>
        let r := searchPhase2Depth T depth startCoord depth 0 none
        match r.1 with
        | some sol => (some (sol, depth), st.2 + r.2)
        | none => (none, st.2 + r.2)) (none, 0)
    match final.1 with
    | some (sol, depth) =>
      some { solution := sol, depth := depth, nodesSearched := final.2, timeMs := timeMs }
    | none => none

/-- `moveIndicesToKeys` from `ida.ts`. -/
def moveIndicesToKeys (moveIndices : List Nat) : List String :=
  moveIndices.map (fun idx => MOVE_KEYS.getD idx "")

/-! ### Solver orchestration (`solver.ts`) -/

/-- `SolverConfig` from `solver.ts`. -/
structure SolverConfig where
  maxPhase1Depth : Nat
  maxPhase2Depth : Nat
  maxTotalDepth : Nat
  verbose : Bool
deriving DecidableEq

/-- `DEFAULT_CONFIG` from `solver.ts`. -/
def DEFAULT_CONFIG : SolverConfig :=
  { maxPhase1Depth := 18, maxPhase2Depth := 18, maxTotalDepth := 30, verbose := false }

/-- `SearchStats` from `ida.ts`. -/
structure SearchStats where
  phase1Stats : Option SearchResult
  phase2Stats : Option SearchResult
  totalDepth : Nat
  totalNodes : Nat
  totalTimeMs : Nat
deriving DecidableEq

/-- `Solution` from `solver.ts`. -/
structure Solution where
  moves : List String
  scramble : List String
  phase1Moves : List String
  phase2Moves : List String
  stats : SearchStats
  success : Bool
  error : Option String
deriving DecidableEq

/-- `verifySolution` from `solver.ts`: apply the move keys and test `isSolved`
(no contained operation throws, so the `catch` arm is dead). -/
def verifySolution (originalCube : Cube) (solution : List String) : Bool :=
  isSolved (solution.foldl (fun c k => applyMove c (getMoveByKey k)) originalCube)

/-- `KociembaSolver.solvePhase1` from `solver.ts`. -/
def solvePhase1 (T1 : Phase1Tables) (config : SolverConfig) (cube : Cube)
    (timeMs : Nat) : Solution :=
  let phase1Coord := getPhase1Coord cube
  if Coords495.isInG1 cube then
    { moves := [], scramble := [], phase1Moves := [], phase2Moves := []
      stats := ⟨none, none, 0, 0, 0⟩, success := true, error := none }
  else
    match searchPhase1 T1 phase1Coord config.maxPhase1Depth timeMs with
    | none =>
      { moves := [], scramble := [], phase1Moves := [], phase2Moves := []
        stats := ⟨none, none, 0, 0, 0⟩, success := false
        error := some ("Phase 1 search failed (max depth: " ++
          toString config.maxPhase1Depth ++ ")") }
    | some searchResult =>
      let phase1Moves := moveIndicesToKeys searchResult.solution
      { moves := phase1Moves, scramble := [], phase1Moves := phase1Moves, phase2Moves := []
        stats := ⟨some searchResult, none, searchResult.depth,
          searchResult.nodesSearched, searchResult.timeMs⟩
        success := true, error := none }

/-- `KociembaSolver.solvePhase2` from `solver.ts`. -/
def solvePhase2 (T2 : Phase2Tables) (config : SolverConfig) (cube : Cube)
    (timeMs : Nat) : Solution :=
  let phase2Coord := getPhase2Coord cube
  if isSolved cube then
    { moves := [], scramble := [], phase1Moves := [], phase2Moves := []
      stats := ⟨none, none, 0, 0, 0⟩, success := true, error := none }
  else
    match searchPhase2 T2 phase2Coord config.maxPhase2Depth timeMs with
    | none =>
      { moves := [], scramble := [], phase1Moves := [], phase2Moves := []
        stats := ⟨none, none, 0, 0, 0⟩, success := false
        error := some ("Phase 2 search failed (max depth: " ++
          toString config.maxPhase2Depth ++ ")") }
    | some searchResult =>
      let phase2Moves := moveIndicesToKeys searchResult.solution
      { moves := phase2Moves, scramble := [], phase1Moves := [], phase2Moves := phase2Moves
        stats := ⟨none, some searchResult, searchResult.depth,
          searchResult.nodesSearched, searchResult.timeMs⟩
        success := true, error := none }

/-- `KociembaSolver.solve` from `solver.ts`.  The wall-clock readings feeding
the statistics are explicit parameters (`tPhase1`, `tPhase2`, `tTotal`); no
operation in the body throws, so the `catch` arm is dead. -/
def solve (T1 : Phase1Tables) (T2 : Phase2Tables) (config : SolverConfig)
    (cube : Cube) (tPhase1 tPhase2 tTotal : Nat) : Solution :=
  if isSolved cube then
    { moves := [], scramble := [], phase1Moves := [], phase2Moves := []
      stats := ⟨none, none, 0, 0, 0⟩, success := true, error := none }
  else
    let phase1Result := solvePhase1 T1 config cube tPhase1
    if !phase1Result.success then phase1Result
    else
      let intermediateCube := phase1Result.phase1Moves.foldl
        (fun c moveKey => applyMove c (getMoveByKey moveKey)) cube
      let statsA : SearchStats :=
        ⟨phase1Result.stats.phase1Stats, none, 0, phase1Result.stats.totalNodes, 0⟩
      if !Coords495.isInG1 intermediateCube then
        { moves := [], scramble := [], phase1Moves := [], phase2Moves := []
          stats := statsA, success := false
          error := some "Failed to reach G1 subgroup in Phase 1" }
      else
        let phase2Result := solvePhase2 T2 config intermediateCube tPhase2
        if !phase2Result.success then
          { phase2Result with
            phase1Moves := phase1Result.phase1Moves
            stats := ⟨statsA.phase1Stats, phase2Result.stats.phase2Stats, 0,
              statsA.totalNodes + phase2Result.stats.totalNodes, 0⟩ }
        else
          let statsB : SearchStats :=
            ⟨statsA.phase1Stats, phase2Result.stats.phase2Stats,
              phase1Result.phase1Moves.length + phase2Result.phase2Moves.length,
              statsA.totalNodes + phase2Result.stats.totalNodes, tTotal⟩
          let solution := phase1Result.phase1Moves ++ phase2Result.phase2Moves
          let scramble := invertMoveSequence solution
          if !verifySolution cube solution then
            { moves := solution, scramble := scramble
              phase1Moves := phase1Result.phase1Moves
              phase2Moves := phase2Result.phase2Moves
              stats := statsB, success := false
              error := some "Solution verification failed: Solution does not result in solved cube" }
          else
            { moves := solution, scramble := scramble
              phase1Moves := phase1Result.phase1Moves
              phase2Moves := phase2Result.phase2Moves
              stats := statsB, success := true, error := none }

/-! ### Lehmer ranking: recursive reformulations and round-trip lemmas -/

/-- Recursive form of the Lehmer rank computed by `permutationToIndex`. -/
def ptIRec {α : Type} [LT α] [DecidableRel ((· < ·) : α → α → Prop)] : List α → Nat
  | [] => 0
  | a :: rest =>
    (rest.filter (fun x => decide (x < a))).length * Nat.factorial rest.length + ptIRec rest

/-- Recursive form of Lehmer decoding: repeatedly pick the `idx / (len-1)!`-th
element of the remaining pool.  The first argument is the pool size. -/
def pickRecAux : Nat → Nat → List Nat → List Nat
  | 0, _, _ => []
  | n + 1, idx, avail =>
    let fact := Nat.factorial (avail.length - 1)
    let rank := idx / fact
    avail.getD rank 0 :: pickRecAux n (idx % fact) (avail.eraseIdx rank)

/-- Lehmer decoding from a pool of still-available elements. -/
def pickRec (idx : Nat) (avail : List Nat) : List Nat :=
  pickRecAux avail.length idx avail

theorem length_pickRecAux (n : Nat) : ∀ idx avail, (pickRecAux n idx avail).length = n := by
  induction n with
  | zero => intro idx avail; rfl
  | succ n ih => intro idx avail; simp [pickRecAux, ih]

theorem length_pickRec (idx : Nat) (avail : List Nat) :
    (pickRec idx avail).length = avail.length :=
  length_pickRecAux _ _ _

theorem getD_mem_of_lt {l : List Nat} {i : Nat} (h : i < l.length) : l.getD i 0 ∈ l := by
  rw [List.getD_eq_getElem l 0 h]
  exact List.getElem_mem h

theorem ptIRec_lt_factorial {α : Type} [LT α] [DecidableRel ((· < ·) : α → α → Prop)] :
    ∀ l : List α, ptIRec l < Nat.factorial l.length := by
  intro l
  induction l with
  | nil => simp [ptIRec, Nat.factorial]
  | cons a rest ih =>
    have hrank : (rest.filter (fun x => decide (x < a))).length ≤ rest.length :=
      List.length_filter_le _ _
    have h1 : (rest.filter (fun x => decide (x < a))).length * Nat.factorial rest.length ≤
        rest.length * Nat.factorial rest.length :=
      Nat.mul_le_mul_right _ hrank
    have h2 : Nat.factorial (rest.length + 1) =
        (rest.length + 1) * Nat.factorial rest.length := rfl
    simp only [ptIRec, List.length_cons, h2]
    have := Nat.factorial_pos rest.length
    calc (rest.filter (fun x => decide (x < a))).length * Nat.factorial rest.length + ptIRec rest
      ≤ rest.length * Nat.factorial rest.length + ptIRec rest := by omega
    _ < rest.length * Nat.factorial rest.length + Nat.factorial rest.length := by omega
    _ = (rest.length + 1) * Nat.factorial rest.length := by ring

theorem mul_add_div_of_lt {f a r : Nat} (h : r < f) : (a * f + r) / f = a := by
  rw [Nat.add_comm, Nat.add_mul_div_right _ _ (by omega : 0 < f), Nat.div_eq_of_lt h]
  omega

theorem mul_add_mod_of_lt {f a r : Nat} (h : r < f) : (a * f + r) % f = r := by
  rw [Nat.add_mod, Nat.mul_mod_left]
  simp [Nat.mod_eq_of_lt h]

/-- In a strictly sorted list, the element at the index given by the number of
strictly smaller entries is the element itself. -/
theorem sorted_getD_countP {l : List Nat} (hs : l.Sorted (· < ·)) {a : Nat} (ha : a ∈ l) :
    l.getD (l.countP (fun x => decide (x < a))) 0 = a := by
  induction l with
  | nil => cases ha
  | cons b t ih =>
    have hbt : ∀ x ∈ t, b < x := (List.sorted_cons.mp hs).1
    have hst : t.Sorted (· < ·) := (List.sorted_cons.mp hs).2
    rcases List.mem_cons.mp ha with rfl | hat
    · have h1 : decide (a < a) = false := by simp
      have h2 : t.countP (fun x => decide (x < a)) = 0 := by
        rw [List.countP_eq_zero]
        intro x hx
        simp only [decide_eq_true_eq]
        exact fun hlt => absurd hlt (Nat.not_lt.mpr (Nat.le_of_lt (hbt x hx)))
      simp [List.countP_cons, h1, h2]
    · have hba : b < a := hbt a hat
      have h1 : decide (b < a) = true := by simpa using hba
      have hidx : (b :: t).countP (fun x => decide (x < a)) =
          t.countP (fun x => decide (x < a)) + 1 := by
        simp [List.countP_cons, h1]
      rw [hidx, List.getD_cons_succ, ih hst hat]

/-- In a strictly sorted list, erasing at that index is erasing the element. -/
theorem sorted_eraseIdx_countP {l : List Nat} (hs : l.Sorted (· < ·)) {a : Nat} (ha : a ∈ l) :
    l.eraseIdx (l.countP (fun x => decide (x < a))) = l.erase a := by
  induction l with
  | nil => cases ha
  | cons b t ih =>
    have hbt : ∀ x ∈ t, b < x := (List.sorted_cons.mp hs).1
    have hst : t.Sorted (· < ·) := (List.sorted_cons.mp hs).2
    rcases List.mem_cons.mp ha with rfl | hat
    · have h2 : t.countP (fun x => decide (x < a)) = 0 := by
        rw [List.countP_eq_zero]
        intro x hx
        simp only [decide_eq_true_eq]
        exact fun hlt => absurd hlt (Nat.not_lt.mpr (Nat.le_of_lt (hbt x hx)))
      simp [List.countP_cons, h2]
    · have hba : b < a := hbt a hat
      have hne : b ≠ a := Nat.ne_of_lt hba
      have h1 : decide (b < a) = true := by simpa using hba
      have hidx : (b :: t).countP (fun x => decide (x < a)) =
          t.countP (fun x => decide (x < a)) + 1 := by
        simp [List.countP_cons, h1]
      rw [hidx, List.erase_cons_tail (by simpa using hne), List.eraseIdx_cons_succ,
        ih hst hat]

/-- Decoding the rank of `p` from a strictly sorted pool holding exactly the
elements of `p` recovers `p`. -/
theorem pickRec_ptIRec : ∀ (p avail : List Nat), avail.Sorted (· < ·) → p.Perm avail →
    pickRec (ptIRec p) avail = p := by
  intro p
  induction p with
  | nil =>
    intro avail _ hperm
    have : avail = [] := (hperm.symm).eq_nil
    subst this
    rfl
  | cons a rest ih =>
    intro avail hs hperm
    have hlen : avail.length = rest.length + 1 := by
      simpa using hperm.symm.length_eq
    have hmem : a ∈ avail := hperm.mem_iff.mp (List.mem_cons_self a rest)
    have hrank : avail.countP (fun x => decide (x < a)) =
        (rest.filter (fun x => decide (x < a))).length := by
      rw [hperm.symm.countP_eq]
      simp [List.countP_cons, List.countP_eq_length_filter]
    have hfact : ptIRec rest < Nat.factorial rest.length := ptIRec_lt_factorial rest
    unfold pickRec
    rw [hlen]
    simp only [pickRecAux]
    rw [hlen]
    simp only [Nat.add_sub_cancel, ptIRec]
    rw [mul_add_div_of_lt hfact, mul_add_mod_of_lt hfact, ← hrank,
      sorted_getD_countP hs hmem, sorted_eraseIdx_countP hs hmem]
    have hperm' : rest.Perm (avail.erase a) := by
      have h1 : (a :: rest).erase a = rest := by simp
      have := hperm.erase a
      rw [h1] at this
      exact this
    have hs' : (avail.erase a).Sorted (· < ·) :=
      hs.sublist (avail.erase_sublist a)
    have hlen' : (avail.erase a).length = rest.length := by
      simpa using hperm'.symm.length_eq
    have := ih (avail.erase a) hs' hperm'
    unfold pickRec at this
    rw [hlen'] at this
    rw [this]

/-- A list is a permutation of its pick at any in-range index consed onto the
remainder. -/
theorem perm_getD_cons_eraseIdx {l : List Nat} {i : Nat} (h : i < l.length) :
    l.Perm (l.getD i 0 :: l.eraseIdx i) := by
  conv_lhs => rw [← List.take_append_drop i l]
  have hdrop : l.drop i = l.getD i 0 :: l.drop (i + 1) := by
    rw [List.getD_eq_getElem l 0 h]
    exact (List.get_drop_eq_drop l i h).symm
  rw [hdrop, List.eraseIdx_eq_take_drop_succ]
  exact List.perm_middle

theorem sorted_eraseIdx {l : List Nat} (hs : l.Sorted (· < ·)) (i : Nat) :
    (l.eraseIdx i).Sorted (· < ·) :=
  hs.sublist (List.eraseIdx_sublist l i)

theorem pickRec_perm : ∀ (n : Nat) (avail : List Nat) (idx : Nat), avail.length = n →
    idx < Nat.factorial n → (pickRecAux n idx avail).Perm avail := by
  intro n
  induction n with
  | zero =>
    intro avail idx hlen _
    have : avail = [] := List.length_eq_zero.mp hlen
    subst this
    rfl
  | succ n ih =>
    intro avail idx hlen hidx
    have hfpos := Nat.factorial_pos n
    have hrank : idx / Nat.factorial n < n + 1 := by
      apply Nat.div_lt_of_lt_mul
      calc idx < Nat.factorial (n + 1) := hidx
      _ = Nat.factorial n * (n + 1) := by rw [Nat.factorial_succ]; ring
    have hrank' : idx / Nat.factorial n < avail.length := by omega
    have hlen' : (avail.eraseIdx (idx / Nat.factorial n)).length = n := by
      rw [List.length_eraseIdx_of_lt hrank']
      omega
    have hmod : idx % Nat.factorial n < Nat.factorial n := Nat.mod_lt _ hfpos
    simp only [pickRecAux, hlen, Nat.add_sub_cancel]
    exact ((ih _ _ hlen' hmod).cons _).trans (perm_getD_cons_eraseIdx hrank').symm

/-- In a strictly sorted list, the number of entries smaller than the entry at
index `i` is `i`. -/
theorem sorted_countP_getD {l : List Nat} (hs : l.Sorted (· < ·)) :
    ∀ i, i < l.length → l.countP (fun x => decide (x < l.getD i 0)) = i := by
  induction l with
  | nil => intro i h; simp at h
  | cons b t ih =>
    have hbt : ∀ x ∈ t, b < x := (List.sorted_cons.mp hs).1
    have hst : t.Sorted (· < ·) := (List.sorted_cons.mp hs).2
    intro i hi
    match i with
    | 0 =>
      have h2 : t.countP (fun x => decide (x < b)) = 0 := by
        rw [List.countP_eq_zero]
        intro x hx
        simp only [decide_eq_true_eq]
        exact fun hlt => absurd hlt (Nat.not_lt.mpr (Nat.le_of_lt (hbt x hx)))
      simp [List.countP_cons, h2]
    | i + 1 =>
      have hit : i < t.length := by simpa using hi
      have hmem : t.getD i 0 ∈ t := getD_mem_of_lt hit
      have hb : decide (b < t.getD i 0) = true := by simpa using hbt _ hmem
      rw [List.getD_cons_succ, List.countP_cons, hb, ih hst i hit]
      simp

/-- Ranking the decoded list recovers the index. -/
theorem ptIRec_pickRec : ∀ (n : Nat) (avail : List Nat) (idx : Nat), avail.length = n →
    avail.Sorted (· < ·) → idx < Nat.factorial n → ptIRec (pickRecAux n idx avail) = idx := by
  intro n
  induction n with
  | zero =>
    intro avail idx _ _ hidx
    have : idx = 0 := by simpa [Nat.factorial] using Nat.lt_one_iff.mp hidx
    subst this
    rfl
  | succ n ih =>
    intro avail idx hlen hs hidx
    have hfpos := Nat.factorial_pos n
    have hrank : idx / Nat.factorial n < n + 1 := by
      apply Nat.div_lt_of_lt_mul
      calc idx < Nat.factorial (n + 1) := hidx
      _ = Nat.factorial n * (n + 1) := by rw [Nat.factorial_succ]; ring
    set rank := idx / Nat.factorial n with hrankdef
    have hrank' : rank < avail.length := by omega
    have hlen' : (avail.eraseIdx rank).length = n := by
      rw [List.length_eraseIdx_of_lt hrank']
      omega
    have hmod : idx % Nat.factorial n < Nat.factorial n := Nat.mod_lt _ hfpos
    have htailperm : (pickRecAux n (idx % Nat.factorial n) (avail.eraseIdx rank)).Perm
        (avail.eraseIdx rank) := pickRec_perm n _ _ hlen' hmod
    have htailsorted : (avail.eraseIdx rank).Sorted (· < ·) := sorted_eraseIdx hs rank
    set pivot := avail.getD rank 0 with hpivot
    have hcount : (avail.eraseIdx rank).countP (fun x => decide (x < pivot)) = rank := by
      have hsplit : avail.eraseIdx rank = avail.take rank ++ avail.drop (rank + 1) :=
        List.eraseIdx_eq_take_drop_succ avail rank
      have hfull : avail.countP (fun x => decide (x < pivot)) = rank :=
        sorted_countP_getD hs rank hrank'
      have hdrop : avail.drop rank = pivot :: avail.drop (rank + 1) := by
        rw [hpivot, List.getD_eq_getElem avail 0 hrank']
        exact (List.get_drop_eq_drop avail rank hrank').symm
      have hall : avail = avail.take rank ++ pivot :: avail.drop (rank + 1) := by
        conv_lhs => rw [← List.take_append_drop rank avail]
        rw [hdrop]
      have hx : decide (pivot < pivot) = false := by simp
      rw [hsplit, List.countP_append]
      rw [hall, List.countP_append, List.countP_cons, hx] at hfull
      simp at hfull
      omega
    have hcount2 : (List.filter (fun x => decide (x < pivot))
        (pickRecAux n (idx % Nat.factorial n) (avail.eraseIdx rank))).length = rank := by
      rw [← List.countP_eq_length_filter, htailperm.countP_eq]
      exact hcount
    have hlentail : (pickRecAux n (idx % Nat.factorial n) (avail.eraseIdx rank)).length = n :=
      length_pickRecAux _ _ _
    simp only [pickRecAux, hlen, Nat.add_sub_cancel, ← hrankdef, ← hpivot]
    rw [ptIRec.eq_def]
    simp only []
    rw [hlentail, hcount2, ih _ _ hlen' htailsorted hmod, hrankdef, Nat.mul_comm]
    exact Nat.div_add_mod idx (Nat.factorial n)

theorem getD_append_left_len {l₁ l₂ : List Nat} {k d : Nat} :
    (l₁ ++ l₂).getD (l₁.length + k) d = l₂.getD k d := by
  simp [List.getD_eq_getElem?_getD, List.getElem?_append_right (Nat.le_add_right _ _)]

theorem range_foldl_factorial (n : Nat) :
    (List.range n).foldl (fun acc i => acc * (i + 1)) 1 = Nat.factorial n := by
  induction n with
  | zero => rfl
  | succ n ih =>
    rw [List.range_succ, List.foldl_append, ih, Nat.factorial_succ]
    simp [Nat.mul_comm]

/-- Loop invariant for `indexToPermutation`: once the first `done.length` slots
are decided, the remaining iterations perform `pickRecAux` on the suffix pool. -/
theorem itPLoop_eq (n : Nat) : ∀ (L : Nat) (avail done : List Nat) (idx : Nat),
    avail.length = L → n = done.length + L → idx < Nat.factorial L →
    ((List.range' done.length L).foldl
      (fun (st : List Nat × Nat × Nat) i =>
        let fact := st.2.2 / (n - i)
        let rank := st.2.1 / fact
        (rotateToFront st.1 i rank, st.2.1 % fact, fact))
      (done ++ avail, idx, Nat.factorial L)).1
    = done ++ pickRecAux L idx avail := by
  intro L
  induction L with
  | zero =>
    intro avail done idx hlen _ _
    have : avail = [] := List.length_eq_zero.mp hlen
    subst this
    simp [pickRecAux]
  | succ L ih =>
    intro avail done idx hlen hn hidx
    have hfpos := Nat.factorial_pos L
    have hnd : n - done.length = L + 1 := by omega
    have hfact : Nat.factorial (L + 1) / (L + 1) = Nat.factorial L := by
      rw [Nat.factorial_succ]
      exact Nat.mul_div_cancel_left _ (by omega)
    have hrank : idx / Nat.factorial L < L + 1 := by
      apply Nat.div_lt_of_lt_mul
      calc idx < Nat.factorial (L + 1) := hidx
      _ = Nat.factorial L * (L + 1) := by rw [Nat.factorial_succ]; ring
    set rank := idx / Nat.factorial L with hrankdef
    have hrankav : rank < avail.length := by omega
    have hrot : rotateToFront (done ++ avail) done.length rank =
        (done ++ [avail.getD rank 0]) ++ avail.eraseIdx rank := by
      unfold rotateToFront
      rw [List.take_left' rfl, List.drop_left' rfl]
      have h1 : (done ++ avail).getD (done.length + rank) 0 = avail.getD rank 0 :=
        getD_append_left_len
      have h2 : (done ++ avail).drop (done.length + rank + 1) = avail.drop (rank + 1) := by
        have := @List.drop_append _ done avail (rank + 1)
        simpa [Nat.add_assoc] using this
      rw [h1, h2, List.eraseIdx_eq_take_drop_succ]
      simp
    have hmod : idx % Nat.factorial L < Nat.factorial L := Nat.mod_lt _ hfpos
    have herlen : (avail.eraseIdx rank).length = L := by
      rw [List.length_eraseIdx_of_lt hrankav]
      omega
    rw [List.range'_succ]
    simp only [List.foldl_cons, hnd, hfact, ← hrankdef, hrot]
    have hstep := ih (avail.eraseIdx rank) (done ++ [avail.getD rank 0])
      (idx % Nat.factorial L) herlen (by simp; omega) hmod
    have hdl : (done ++ [avail.getD rank 0]).length = done.length + 1 := by simp
    rw [hdl] at hstep
    rw [hstep]
    simp only [pickRecAux, hlen, Nat.add_sub_cancel, ← hrankdef]
    simp

/-- `indexToPermutation` agrees with the recursive Lehmer decoding for every
in-range index. -/
theorem indexToPermutation_eq_pickRec (idx n : Nat) (h : idx < Nat.factorial n) :
    indexToPermutation idx n = pickRec idx (List.range n) := by
  unfold indexToPermutation pickRec
  rw [range_foldl_factorial]
  have h0 : List.range n = List.range' 0 n := List.range_eq_range' n
  have hlen : (List.range n).length = n := List.length_range n
  have := itPLoop_eq n n (List.range n) [] idx hlen (by simp) h
  simp only [List.nil_append, List.length_nil] at this
  rw [← h0] at this
  rw [this, hlen]

theorem getD_append_left_len' {α : Type} [Inhabited α] {l₁ l₂ : List α} {k : Nat} :
    (l₁ ++ l₂).getD (l₁.length + k) default = l₂.getD k default := by
  simp [List.getD_eq_getElem?_getD, List.getElem?_append_right (Nat.le_add_right _ _)]

/-- Loop invariant for `permutationToIndex`: after the first `pre.length`
iterations the remaining ones accumulate the recursive rank of the suffix. -/
theorem ptILoop_eq {α : Type} [Inhabited α] [LT α]
    [DecidableRel ((· < ·) : α → α → Prop)] (l : List α) :
    ∀ (suf pre : List α) (acc : Nat), l = pre ++ suf →
    ((List.range' pre.length suf.length).foldl
      (fun (st : Nat × Nat) i =>
        let fact := st.2 / (l.length - i)
        let rank := ((l.drop (i + 1)).filter (fun x => decide (x < l.getD i default))).length
        (st.1 + rank * fact, fact)) (acc, Nat.factorial suf.length)).1
    = acc + ptIRec suf := by
  intro suf
  induction suf with
  | nil =>
    intro pre acc _
    simp [ptIRec]
  | cons a rest ih =>
    intro pre acc hl
    have hlen : (a :: rest).length = rest.length + 1 := rfl
    have hll : l.length - pre.length = rest.length + 1 := by
      rw [hl]
      simp
    have hfact : Nat.factorial (rest.length + 1) / (rest.length + 1) =
        Nat.factorial rest.length := by
      rw [Nat.factorial_succ]
      exact Nat.mul_div_cancel_left _ (by omega)
    have hgetD : l.getD pre.length default = a := by
      have := @getD_append_left_len' _ _ pre (a :: rest) 0
      rw [hl]
      simpa using this
    have hdrop : l.drop (pre.length + 1) = rest := by
      have := @List.drop_append _ pre (a :: rest) 1
      rw [hl]
      simpa using this
    rw [hlen, List.range'_succ]
    simp only [List.foldl_cons, hll, hfact, hgetD, hdrop]
    have hstep := ih (pre ++ [a])
      (acc + (rest.filter (fun x => decide (x < a))).length * Nat.factorial rest.length)
      (by rw [hl]; simp)
    have hdl : (pre ++ [a]).length = pre.length + 1 := by simp
    rw [hdl] at hstep
    rw [hstep]
    simp only [ptIRec]
    omega

/-- `permutationToIndex` agrees with the recursive Lehmer rank on every list. -/
theorem permutationToIndex_eq_ptIRec {α : Type} [Inhabited α] [LT α]
    [DecidableRel ((· < ·) : α → α → Prop)] (l : List α) :
    permutationToIndex l = ptIRec l := by
  rw [permutationToIndex.eq_def]
  simp only [range_foldl_factorial]
  have h0 : List.range l.length = List.range' 0 l.length := List.range_eq_range' _
  have := ptILoop_eq l l [] 0 (by simp)
  simp only [List.length_nil, Nat.zero_add] at this
  rw [← this, h0]

theorem perm_range_of_valid {l : List Nat} {n : Nat} (hlen : l.length = n)
    (hlt : ∀ x ∈ l, x < n) (hnodup : l.Nodup) : l.Perm (List.range n) := by
  have hsub : l.Subperm (List.range n) :=
    hnodup.subperm (fun x hx => List.mem_range.mpr (hlt x hx))
  exact hsub.perm_of_length_le (by simp [hlen])

/-- Decoding the Lehmer rank of a permutation of `[0, n)` recovers it. -/
theorem indexToPermutation_permutationToIndex {l : List Nat} {n : Nat}
    (hperm : l.Perm (List.range n)) : indexToPermutation (permutationToIndex l) n = l := by
  have hlen : l.length = n := by simpa using hperm.length_eq
  have hlt : ptIRec l < Nat.factorial n := by
    rw [← hlen]
    exact ptIRec_lt_factorial l
  rw [permutationToIndex_eq_ptIRec, indexToPermutation_eq_pickRec _ _ hlt]
  exact pickRec_ptIRec l (List.range n) (List.sorted_lt_range n) hperm

/-- Ranking the decoded permutation recovers every index below `n!`. -/
theorem permutationToIndex_indexToPermutation {k n : Nat} (h : k < Nat.factorial n) :
    permutationToIndex (indexToPermutation k n) = k := by
  rw [indexToPermutation_eq_pickRec _ _ h, permutationToIndex_eq_ptIRec]
  unfold pickRec
  rw [List.length_range]
  exact ptIRec_pickRec n (List.range n) k (List.length_range n) (List.sorted_lt_range n) h

theorem shiftLor (a b : Nat) (h : b ≤ 1) : (a <<< 1) ||| b = 2 * a + b := by
  rw [Nat.shiftLeft_eq, Nat.pow_one, Nat.mul_comm]
  rcases Nat.le_one_iff_eq_zero_or_eq_one.mp h with rfl | rfl
  · simp
  · apply Nat.eq_of_testBit_eq
    intro i
    match i with
    | 0 =>
      rw [Nat.testBit_lor]
      simp [Nat.testBit_zero]
      omega
    | i + 1 =>
      have h1 : Nat.testBit 1 (i + 1) = false := by simp [Nat.testBit_succ]
      have e1 : 2 * a / 2 = a := by omega
      have e2 : (2 * a + 1) / 2 = a := by omega
      rw [Nat.testBit_lor, h1, Bool.or_false, Nat.testBit_succ, Nat.testBit_succ, e1, e2]

theorem shiftLorMod (a x : Nat) : (a <<< 1) ||| (x % 2) = 2 * a + x % 2 :=
  shiftLor a (x % 2) (by omega)

/-- Decode/encode round trip for the edge-orientation coordinate at the solved
cube: the eleven written bits are read back and reassembled into `k`. -/
theorem eo_roundtrip (k : Nat) (h : k < 2048) :
    getEdgeOrientation (setEdgeOrientation solvedCube k) = k := by
  have hrev : (List.range 11).reverse = [10, 9, 8, 7, 6, 5, 4, 3, 2, 1, 0] := by decide
  have hr : List.range 11 = [0, 1, 2, 3, 4, 5, 6, 7, 8, 9, 10] := by decide
  simp only [setEdgeOrientation, getEdgeOrientation, solvedCube, hrev, hr,
    List.foldl_cons, List.foldl_nil]
  simp only [Nat.shiftRight_eq_div_pow]
  norm_num [List.set, List.getD, List.get?, Nat.and_one_is_mod]
  simp only [shiftLorMod]
  omega

/-- Decode/encode round trip for the corner-orientation coordinate at the
solved cube. -/
theorem co_roundtrip (k : Nat) (h : k < 2187) :
    getCornerOrientation (setCornerOrientation solvedCube k) = k := by
  have hrev : (List.range 7).reverse = [6, 5, 4, 3, 2, 1, 0] := by decide
  have hr : List.range 7 = [0, 1, 2, 3, 4, 5, 6] := by decide
  simp only [setCornerOrientation, getCornerOrientation, solvedCube, hrev, hr,
    List.foldl_cons, List.foldl_nil]
  norm_num [List.set, List.getD, List.get?]
  omega

theorem factorial_eight : Nat.factorial 8 = 40320 := by decide

theorem cp_roundtrip (k : Nat) (h : k < 40320) :
    getCornerPermutation (setCornerPermutation solvedCube k) = k := by
  unfold getCornerPermutation setCornerPermutation
  exact permutationToIndex_indexToPermutation (by rw [factorial_eight]; exact h)

theorem udep_roundtrip (k : Nat) (h : k < 40320) :
    Coords495.getUDEdgePermutation (Coords495.setUDEdgePermutation solvedCube k) = k := by
  have hf : k < Nat.factorial 8 := by rw [factorial_eight]; exact h
  have hlen : (indexToPermutation k 8).length = 8 := by
    rw [indexToPermutation_eq_pickRec _ _ hf]
    simpa using length_pickRec _ _
  unfold Coords495.getUDEdgePermutation Coords495.setUDEdgePermutation
  simp only []
  rw [List.take_left' hlen]
  exact permutationToIndex_indexToPermutation hf

set_option maxRecDepth 4000 in
theorem eslice495_roundtrip : ∀ k < 495, Coords495.getESlice (Coords495.setESlice solvedCube k) = k := by
  decide

theorem ep_roundtrip : ∀ k < 24,
    Coords495.getESlicePermutation (Coords495.setESlicePermutation solvedCube k) = k := by
  decide

/-- C7: for each of the six coordinates (eo, co, eslice, cp, udep, ep, with
sizes 2048, 2187, 495, 40320, 40320, 24) and every integer `k` below the
coordinate's size, decoding `k` into a solved cube with the coordinate's
setter and re-encoding it with the coordinate's getter returns exactly `k`. -/
theorem c7_coordinate_roundtrip : ∀ k : Nat,
    (k < Coords495.EO_SIZE → getEdgeOrientation (setEdgeOrientation solvedCube k) = k) ∧
    (k < Coords495.CO_SIZE → getCornerOrientation (setCornerOrientation solvedCube k) = k) ∧
    (k < Coords495.ESLICE_SIZE → Coords495.getESlice (Coords495.setESlice solvedCube k) = k) ∧
    (k < Coords495.CP_SIZE → getCornerPermutation (setCornerPermutation solvedCube k) = k) ∧
    (k < Coords495.UDEP_SIZE →
      Coords495.getUDEdgePermutation (Coords495.setUDEdgePermutation solvedCube k) = k) ∧
    (k < Coords495.EP_SIZE →
      Coords495.getESlicePermutation (Coords495.setESlicePermutation solvedCube k) = k) := by
  intro k
  refine ⟨fun h => eo_roundtrip k h, fun h => co_roundtrip k h,
    fun h => eslice495_roundtrip k h, fun h => cp_roundtrip k h,
    fun h => udep_roundtrip k h, fun h => ep_roundtrip k h⟩

/-- Witness for C7 at the concrete coordinate value `k = 0`. -/
theorem c7_coordinate_roundtrip_witness :
    getEdgeOrientation (setEdgeOrientation solvedCube 0) = 0 ∧
    getCornerOrientation (setCornerOrientation solvedCube 0) = 0 ∧
    Coords495.getESlice (Coords495.setESlice solvedCube 0) = 0 ∧
    getCornerPermutation (setCornerPermutation solvedCube 0) = 0 ∧
    Coords495.getUDEdgePermutation (Coords495.setUDEdgePermutation solvedCube 0) = 0 ∧
    Coords495.getESlicePermutation (Coords495.setESlicePermutation solvedCube 0) = 0 :=
  ⟨(c7_coordinate_roundtrip 0).1 (by decide),
   (c7_coordinate_roundtrip 0).2.1 (by decide),
   (c7_coordinate_roundtrip 0).2.2.1 (by decide),
   (c7_coordinate_roundtrip 0).2.2.2.1 (by decide),
   (c7_coordinate_roundtrip 0).2.2.2.2.1 (by decide),
   (c7_coordinate_roundtrip 0).2.2.2.2.2 (by decide)⟩

/-- The fixed array lengths of the cube data model (spec section 3). -/
def wellFormed (c : Cube) : Prop :=
  c.cPerm.length = 8 ∧ c.cOri.length = 8 ∧ c.ePerm.length = 12 ∧ c.eOri.length = 12

instance (c : Cube) : Decidable (wellFormed c) := by
  unfold wellFormed
  infer_instance

theorem getD_map_range {n : Nat} (g : Nat → Nat) {i : Nat} (hi : i < n) :
    ((List.range n).map g).getD i 0 = g i := by
  rw [List.getD_eq_getElem _ _ (by simpa using hi)]
  simp

theorem map_range_getD_self {l : List Nat} {n : Nat} (h : l.length = n) :
    (List.range n).map (fun i => l.getD i 0) = l := by
  apply List.ext_getElem (by simpa using h.symm)
  intro i h1 h2
  simp [← List.getD_eq_getElem l 0 h2]

/-- Sufficient pointwise conditions for a pair of move operators to cancel:
the second permutation followed by the first is the identity and the
orientation deltas cancel along it. -/
def movesCancel (M M' : MoveTable) : Bool :=
  ((List.range 8).all (fun i =>
    M'.cornerPerm.getD i 0 < 8 &&
    M.cornerPerm.getD (M'.cornerPerm.getD i 0) 0 == i &&
    (M.cornerOriDelta.getD (M'.cornerPerm.getD i 0) 0 + M'.cornerOriDelta.getD i 0) % 3 == 0)) &&
  ((List.range 12).all (fun i =>
    M'.edgePerm.getD i 0 < 12 &&
    M.edgePerm.getD (M'.edgePerm.getD i 0) 0 == i &&
    ((M.edgeOriDelta.getD (M'.edgePerm.getD i 0) 0) ^^^ (M'.edgeOriDelta.getD i 0)) == 0))

theorem applyMove_cancel {M M' : MoveTable} (hc : movesCancel M M' = true)
    (c : Cube) (hw : wellFormed c) (hco : ∀ x ∈ c.cOri, x < 3) :
    applyMove (applyMove c M) M' = c := by
  obtain ⟨h8, h8o, h12, h12o⟩ := hw
  unfold movesCancel at hc
  rw [Bool.and_eq_true, List.all_eq_true, List.all_eq_true] at hc
  obtain ⟨hcC, hcE⟩ := hc
  have hcC' : ∀ i, i < 8 →
      M'.cornerPerm.getD i 0 < 8 ∧
      M.cornerPerm.getD (M'.cornerPerm.getD i 0) 0 = i ∧
      (M.cornerOriDelta.getD (M'.cornerPerm.getD i 0) 0 + M'.cornerOriDelta.getD i 0) % 3 = 0 := by
    intro i hi
    have := hcC i (List.mem_range.mpr hi)
    simp only [Bool.and_eq_true, beq_iff_eq, decide_eq_true_eq] at this
    exact ⟨this.1.1, this.1.2, this.2⟩
  have hcE' : ∀ i, i < 12 →
      M'.edgePerm.getD i 0 < 12 ∧
      M.edgePerm.getD (M'.edgePerm.getD i 0) 0 = i ∧
      (M.edgeOriDelta.getD (M'.edgePerm.getD i 0) 0) ^^^ (M'.edgeOriDelta.getD i 0) = 0 := by
    intro i hi
    have := hcE i (List.mem_range.mpr hi)
    simp only [Bool.and_eq_true, beq_iff_eq, decide_eq_true_eq] at this
    exact ⟨this.1.1, this.1.2, this.2⟩
  unfold applyMove
  rcases c with ⟨cp, co, ep, eo⟩
  simp only at h8 h8o h12 h12o hco ⊢
  congr 1
  · refine (List.map_congr_left ?_).trans (map_range_getD_self h8)
    intro i hi
    have hi8 := List.mem_range.mp hi
    obtain ⟨hlt, hperm, _⟩ := hcC' i hi8
    rw [getD_map_range _ hlt, hperm]
  · refine (List.map_congr_left ?_).trans (map_range_getD_self h8o)
    intro i hi
    have hi8 := List.mem_range.mp hi
    obtain ⟨hlt, hperm, hdelta⟩ := hcC' i hi8
    rw [getD_map_range _ hlt, hperm]
    have hx : co.getD i 0 < 3 := hco _ (getD_mem_of_lt (by omega))
    omega
  · refine (List.map_congr_left ?_).trans (map_range_getD_self h12)
    intro i hi
    have hi12 := List.mem_range.mp hi
    obtain ⟨hlt, hperm, _⟩ := hcE' i hi12
    rw [getD_map_range _ hlt, hperm]
  · refine (List.map_congr_left ?_).trans (map_range_getD_self h12o)
    intro i hi
    have hi12 := List.mem_range.mp hi
    obtain ⟨hlt, hperm, hdelta⟩ := hcE' i hi12
    rw [getD_map_range _ hlt, hperm]
    have := Nat.xor_eq_zero.mp hdelta
    rw [Nat.xor_assoc, ← this]
    simp [← Nat.xor_assoc]

/-- C8: for every move index `m < 18` and every well-formed cube state (with
corner twists in range, as the data model requires), applying the move and
then its `invertMove` inverse returns the original cube state. -/
theorem c8_apply_invert (m : Nat) (hm : m < 18) (c : Cube) (hw : wellFormed c)
    (hco : ∀ x ∈ c.cOri, x < 3) :
    applyMove (applyMove c (getMoveByIndex m)) (invertMove (getMoveByIndex m)) = c := by
  apply applyMove_cancel _ c hw hco
  interval_cases m <;> decide

/-- Witness for C8: the `U` move followed by its inverse at the solved cube. -/
theorem c8_apply_invert_witness :
    applyMove (applyMove solvedCube (getMoveByIndex 0)) (invertMove (getMoveByIndex 0)) =
      solvedCube :=
  c8_apply_invert 0 (by decide) solvedCube (by decide) (by decide)

/-- Sufficient conditions for a move to stabilize the G1 test: it flips no
edge, keeps indices in range, and permutes the four slice slots `8..11`
among themselves. -/
def g1Preserving (M : MoveTable) : Bool :=
  ((List.range 12).all (fun i => M.edgeOriDelta.getD i 0 == 0 && M.edgePerm.getD i 0 < 12)) &&
  decide ((([8, 9, 10, 11] : List Nat).map (fun i => M.edgePerm.getD i 0)).Perm [8, 9, 10, 11])

theorem isInG1_applyMove {M : MoveTable} (hg : g1Preserving M = true) (c : Cube)
    (hw : wellFormed c) (h1 : Coords495.isInG1 c = true) :
    Coords495.isInG1 (applyMove c M) = true := by
  unfold g1Preserving at hg
  rw [Bool.and_eq_true, List.all_eq_true] at hg
  obtain ⟨hgA, hgB⟩ := hg
  have hgA' : ∀ i, i < 12 → M.edgeOriDelta.getD i 0 = 0 ∧ M.edgePerm.getD i 0 < 12 := by
    intro i hi
    have := hgA i (List.mem_range.mpr hi)
    simp only [Bool.and_eq_true, beq_iff_eq, decide_eq_true_eq] at this
    exact this
  have hgB' : (([8, 9, 10, 11] : List Nat).map (fun i => M.edgePerm.getD i 0)).Perm
      [8, 9, 10, 11] := of_decide_eq_true hgB
  unfold Coords495.isInG1 at h1 ⊢
  rw [Bool.and_eq_true, List.all_eq_true] at h1
  obtain ⟨h1A, h1B⟩ := h1
  have h1A' : ∀ i, i < 12 → c.eOri.getD i 0 = 0 := by
    intro i hi
    have := h1A i (List.mem_range.mpr hi)
    simpa using this
  rw [List.all_eq_true] at h1B
  rw [Bool.and_eq_true, List.all_eq_true]
  constructor
  · intro i hi
    have hi12 := List.mem_range.mp hi
    obtain ⟨hd, hp⟩ := hgA' i hi12
    have : (applyMove c M).eOri.getD i 0 = 0 := by
      unfold applyMove
      simp only []
      rw [getD_map_range _ hi12, hd, h1A' _ hp]
      rfl
    simpa using this
  · rw [List.all_eq_true]
    have hwin : ([8, 9, 10, 11] : List Nat).map (fun pos => (applyMove c M).ePerm.getD pos 0) =
        (([8, 9, 10, 11] : List Nat).map (fun i => M.edgePerm.getD i 0)).map
          (fun p => c.ePerm.getD p 0) := by
      rw [List.map_map]
      apply List.map_congr_left
      intro pos hpos
      have hpos12 : pos < 12 := by
        simp at hpos
        omega
      unfold applyMove
      simp only [Function.comp]
      rw [getD_map_range _ hpos12]
    have hperm2 : (([8, 9, 10, 11] : List Nat).map
        (fun pos => (applyMove c M).ePerm.getD pos 0)).Perm
        (([8, 9, 10, 11] : List Nat).map (fun pos => c.ePerm.getD pos 0)) := by
      rw [hwin]
      exact hgB'.map (fun p => c.ePerm.getD p 0)
    intro e he
    have hold := h1B e he
    have hmem : e ∈ ([8, 9, 10, 11] : List Nat).map (fun pos => c.ePerm.getD pos 0) := by
      simpa [List.elem_iff] using hold
    have hnew : e ∈ ([8, 9, 10, 11] : List Nat).map
        (fun pos => (applyMove c M).ePerm.getD pos 0) := hperm2.mem_iff.mpr hmem
    simpa [List.elem_iff] using hnew

/-- C6: the `PHASE2_MOVES` list is exactly the ten indices
`{0,1,2,9,10,11,4,13,7,16}`, these denote `U,U2,U',D,D2,D',R2,L2,F2,B2`
under the fixed 18-move `MOVE_KEYS` ordering, and applying any of those ten
moves to any well-formed cube satisfying `isInG1` yields a cube still
satisfying `isInG1`. -/
theorem c6_phase2_moves :
    (PHASE2_MOVES = [0, 1, 2, 9, 10, 11, 4, 13, 7, 16] ∧
     PHASE2_MOVES.map (fun i => MOVE_KEYS.getD i "") =
       ["U", "U2", "Up", "D", "D2", "Dp", "R2", "L2", "F2", "B2"]) ∧
    ∀ c : Cube, wellFormed c → Coords495.isInG1 c = true →
      ∀ m ∈ PHASE2_MOVES, Coords495.isInG1 (applyMove c (getMoveByIndex m)) = true := by
  refine ⟨⟨rfl, by decide⟩, ?_⟩
  intro c hw h1 m hm
  fin_cases hm <;> exact isInG1_applyMove (by decide) c hw h1

/-- Witness for C6: the solved cube stays in G1 under move index 4 (`R2`). -/
theorem c6_phase2_moves_witness :
    Coords495.isInG1 (applyMove solvedCube (getMoveByIndex 4)) = true :=
  c6_phase2_moves.2 solvedCube (by decide) (by decide) 4 (by decide)

/-- C5 (the code's behaviour at the failing input): for every table
instantiation, depth cap and clock reading, `searchPhase1` called on the
coordinate `(eo, co, eslice) = (0, 1, 0)` reports success with the empty move
sequence even though `co ≠ 0`: its goal test reads only `eo` and `eslice`. -/
theorem c5_searchPhase1_ignores_co (T : Phase1Tables) (maxDepth timeMs : Nat) :
    searchPhase1 T ⟨0, 1, 0⟩ maxDepth timeMs =
      some { solution := [], depth := 0, nodesSearched := 0, timeMs := timeMs } := rfl

/-- The move action of the 5-valued E-slice coordinate: the entry
`ESLICE_MOVE_TABLE[moveIdx][coord]` built by `buildCoordinateMoveTable` in the
`src` version of `coordinates.ts`. -/
def applyMoveToESlice5 (coord moveIdx : Nat) : Nat :=
  buildCoordinateMoveTableEntry Coords5.getESlice Coords5.setESlice moveIdx coord

/-- The pruning table built for the 5-valued E-slice coordinate with goal 0 and
the full 18-move phase-1 set, as `initializePruningTables` does. -/
def ESlicePruning5 : List Nat :=
  buildPruningTable Coords5.ESLICE_SIZE applyMoveToESlice5 0 (List.range 18)

/-- Coordinates reachable from `start` in at most `n` table moves
(specification-side definition used to state what the BFS computes). -/
def reachUpTo (f : Nat → Nat → Nat) (moves : List Nat) (start : Nat) : Nat → List Nat
  | 0 => [start]
  | n + 1 =>
    let prev := reachUpTo f moves start n
    (prev ++ prev.bind (fun k => moves.map (fun m => f k m))).dedup

/-- Least number of table moves needed to reach `k` from `start` (searched up
to `bound`); `none` when `k` is unreachable within `bound` moves. -/
def fwdDist (f : Nat → Nat → Nat) (moves : List Nat) (start k bound : Nat) : Option Nat :=
  (List.range (bound + 1)).find? (fun n => (reachUpTo f moves start n).contains k)

set_option maxRecDepth 100000 in
/-- C4 (amended): for the 5-valued E-slice coordinate built with goal 0 and all
18 moves, every coordinate value `k < 5` receives the minimal number of table
moves needed to reach `k` *from* 0 (all such distances are at most 20, so the
clamp `min d 20` is the distance itself), and no entry is left at the unknown
sentinel 255.  The entries are *not* distances from `k` to 0 (see the
counterexample). -/
theorem c4_pruning_forward_distance : ∀ k, k < Coords5.ESLICE_SIZE →
    ESlicePruning5.getD k 0 ≠ 255 ∧
    ESlicePruning5.getD k 0 ≤ 20 ∧
    fwdDist applyMoveToESlice5 (List.range 18) 0 k 20 = some (ESlicePruning5.getD k 0) := by
  decide

/-- Witness for C4 at `k = 1`. -/
theorem c4_pruning_forward_distance_witness :
    ESlicePruning5.getD 1 0 ≠ 255 ∧
    ESlicePruning5.getD 1 0 ≤ 20 ∧
    fwdDist applyMoveToESlice5 (List.range 18) 0 1 20 = some (ESlicePruning5.getD 1 0) :=
  c4_pruning_forward_distance 1 (by decide)

set_option maxRecDepth 100000 in
/-- C4 counterexample: the built table stores 1 at coordinate 1, yet no move
maps coordinate 1 to the goal 0; indeed every move sends every coordinate in
`{1, 2, 3, 4}` back into `{1, 2, 3, 4}`, so no sequence of phase-legal table
moves reduces 1 to 0 and the stored value cannot be the claimed
`min(d(1), 20)` with `d(1)` "the minimal number of moves reducing 1 to 0". -/
theorem c4_counterexample :
    ESlicePruning5.getD 1 0 = 1 ∧
    ((List.range 18).all (fun m => applyMoveToESlice5 1 m != 0)) = true ∧
    ((List.range' 1 4).all (fun k =>
      (List.range 18).all (fun m =>
        decide (0 < applyMoveToESlice5 k m) && decide (applyMoveToESlice5 k m < 5)))) = true := by
  decide

/-! ### C2: the 495-valued E-slice coordinate is the reverse-lex rank -/

/-- The slots currently holding E-slice edges (`FR,FL,BL,BR = 8..11`), in
increasing slot order. -/
def eslicePositions (c : Cube) : List Nat :=
  (List.range 12).filter (fun i => decide (c.ePerm.getD i 0 ∈ ([8, 9, 10, 11] : List Nat)))

/-- Combinatorial number system rank: for a sorted position list
`p₀ < p₁ < ...`, the sum of `C(pⱼ, j+1)`.  This ranks 4-subsets in
colexicographic order; `494 - colexSum` is the standard reverse-lex rank the
specification describes. -/
def colexSum : List Nat → Nat → Nat
  | [], _ => 0
  | p :: rest, j => Nat.choose p (j + 1) + colexSum rest (j + 1)

/-- The reverse-lex combinatorial rank of the set of slots occupied by the
E-slice edges, as the specification defines the E-slice coordinate. -/
def specESliceRank (c : Cube) : Nat :=
  494 - colexSum (eslicePositions c) 0

/-- `Coords495.getESlice` as a function of the slot indicator mask. -/
def maskGetESlice (bs : List Bool) : Nat :=
  494 - ((List.range 12).reverse.foldl (fun (st : Nat × Nat) i =>
    if bs.getD i false then (st.1 + binomial i st.2, st.2 - 1) else st) (0, 4)).1

/-- Slot positions selected by an indicator mask. -/
def maskPositions (bs : List Bool) : List Nat :=
  (List.range 12).filter (fun i => bs.getD i false)

/-- The indicator mask of which slots hold E-slice edges. -/
def esliceMask (c : Cube) : List Bool :=
  (List.range 12).map (fun i => decide (8 ≤ c.ePerm.getD i 0))

theorem getD_map_range' {α : Type} (d : α) {n : Nat} (g : Nat → α) {i : Nat} (hi : i < n) :
    ((List.range n).map g).getD i d = g i := by
  rw [List.getD_eq_getElem _ _ (by simpa using hi)]
  simp

/-- The length-12 indicator mask encoded by the low 12 bits of `v`. -/
def bitsMask (v : Nat) : List Bool :=
  (List.range 12).map (fun i => v.testBit i)

/-- The property C2 asserts of a slot mask: the `getESlice` scan computes
`494` minus the combinatorial-number-system rank of the selected positions,
stays below 495, and is zero exactly for positions `{8, 9, 10, 11}`. -/
def esliceMaskProp (bs : List Bool) : Prop :=
  bs.countP id = 4 →
  maskGetESlice bs = 494 - colexSum (maskPositions bs) 0 ∧
  maskGetESlice bs < 495 ∧
  (maskGetESlice bs = 0 ↔ maskPositions bs = [8, 9, 10, 11])

instance (bs : List Bool) : Decidable (esliceMaskProp bs) := by
  unfold esliceMaskProp
  infer_instance

set_option maxRecDepth 10000 in
theorem esliceMaskChunk0 : ∀ w < 1024, esliceMaskProp (bitsMask w) := by decide

set_option maxRecDepth 10000 in
theorem esliceMaskChunk1 : ∀ w < 1024, esliceMaskProp (bitsMask (1024 + w)) := by decide

set_option maxRecDepth 10000 in
theorem esliceMaskChunk2 : ∀ w < 1024, esliceMaskProp (bitsMask (2048 + w)) := by decide

set_option maxRecDepth 10000 in
theorem esliceMaskChunk3 : ∀ w < 1024, esliceMaskProp (bitsMask (3072 + w)) := by decide

/-- Little-endian numeric value of an indicator mask. -/
def bitsValAux : List Bool → Nat
  | [] => 0
  | b :: rest => (if b then 1 else 0) + 2 * bitsValAux rest

theorem bitsValAux_testBit : ∀ (bs : List Bool) (i : Nat),
    (bitsValAux bs).testBit i = bs.getD i false := by
  intro bs
  induction bs with
  | nil => intro i; simp [bitsValAux]
  | cons b rest ih =>
    intro i
    match i with
    | 0 =>
      rw [Nat.testBit_to_div_mod]
      rcases b with _ | _ <;> simp [bitsValAux] <;> omega
    | i + 1 =>
      have hdiv : ((if b then 1 else 0) + 2 * bitsValAux rest) / 2 = bitsValAux rest := by
        rcases b with _ | _ <;> simp <;> omega
      rw [List.getD_cons_succ, ← ih i, bitsValAux, Nat.testBit_succ, hdiv]

theorem bitsValAux_lt : ∀ bs : List Bool, bitsValAux bs < 2 ^ bs.length := by
  intro bs
  induction bs with
  | nil => simp [bitsValAux]
  | cons b rest ih =>
    have : (if b then 1 else 0) ≤ 1 := by rcases b with _ | _ <;> simp
    simp only [bitsValAux, List.length_cons, Nat.pow_succ]
    omega

theorem map_range_getD_self' {α : Type} {d : α} {l : List α} {n : Nat} (h : l.length = n) :
    (List.range n).map (fun i => l.getD i d) = l := by
  apply List.ext_getElem (by simpa using h.symm)
  intro i h1 h2
  simp [← List.getD_eq_getElem l d h2]

theorem bitsMask_bitsValAux {bs : List Bool} (h : bs.length = 12) :
    bitsMask (bitsValAux bs) = bs := by
  unfold bitsMask
  refine (List.map_congr_left ?_).trans (@map_range_getD_self' Bool false bs 12 h)
  intro i _
  exact bitsValAux_testBit bs i

/-- Every length-12 mask satisfies the C2 mask property (combining the four
decidable chunks through the bit encoding). -/
theorem esliceMaskProp_all (bs : List Bool) (h : bs.length = 12) : esliceMaskProp bs := by
  have hv : bitsValAux bs < 4096 := by
    have := bitsValAux_lt bs
    rw [h] at this
    simpa using this
  rw [← bitsMask_bitsValAux h]
  set v := bitsValAux bs with hvdef
  have : v < 1024 ∨ (1024 ≤ v ∧ v < 2048) ∨ (2048 ≤ v ∧ v < 3072) ∨
      (3072 ≤ v ∧ v < 4096) := by omega
  rcases this with h1 | ⟨h1, h2⟩ | ⟨h1, h2⟩ | ⟨h1, h2⟩
  · exact esliceMaskChunk0 v h1
  · have := esliceMaskChunk1 (v - 1024) (by omega)
    have he : 1024 + (v - 1024) = v := by omega
    rw [he] at this
    exact this
  · have := esliceMaskChunk2 (v - 2048) (by omega)
    have he : 2048 + (v - 2048) = v := by omega
    rw [he] at this
    exact this
  · have := esliceMaskChunk3 (v - 3072) (by omega)
    have he : 3072 + (v - 3072) = v := by omega
    rw [he] at this
    exact this

theorem getESlice_eq_mask (c : Cube) :
    Coords495.getESlice c = maskGetESlice (esliceMask c) := by
  unfold Coords495.getESlice maskGetESlice
  have h : ∀ (st : Nat × Nat), ∀ i ∈ (List.range 12).reverse,
      (if 8 ≤ c.ePerm.getD i 0 then (st.1 + binomial i st.2, st.2 - 1) else st) =
      (if (esliceMask c).getD i false then (st.1 + binomial i st.2, st.2 - 1) else st) := by
    intro st i hi
    have hi12 : i < 12 := List.mem_range.mp (List.mem_reverse.mp hi)
    rw [esliceMask, getD_map_range' false _ hi12]
    simp
  have he := List.foldl_ext
    (fun (st : Nat × Nat) i => if 8 ≤ c.ePerm.getD i 0 then (st.1 + binomial i st.2, st.2 - 1) else st)
    (fun (st : Nat × Nat) i => if (esliceMask c).getD i false then (st.1 + binomial i st.2, st.2 - 1) else st)
    ((0, 4) : Nat × Nat) h
  rw [he]

theorem eslicePositions_eq_mask (c : Cube) (hlt : ∀ x ∈ c.ePerm, x < 12) :
    eslicePositions c = maskPositions (esliceMask c) := by
  unfold eslicePositions maskPositions esliceMask
  apply List.filter_congr
  intro i hi
  have hi12 := List.mem_range.mp hi
  rw [getD_map_range' false _ hi12]
  rcases Nat.lt_or_ge (c.ePerm.getD i 0) 12 with hx | hx
  · simp only [List.mem_cons, List.not_mem_nil, or_false, decide_eq_decide]
    omega
  · exfalso
    rcases Nat.lt_or_ge i c.ePerm.length with hil | hil
    · exact absurd (hlt _ (getD_mem_of_lt hil)) (by omega)
    · rw [List.getD_eq_default _ _ hil] at hx
      omega

theorem valid_perm_of_isValidPermutation {l : List Nat} {n : Nat}
    (h : isValidPermutation l n = true) : l.Perm (List.range n) := by
  unfold isValidPermutation at h
  simp only [Bool.and_eq_true, beq_iff_eq, List.all_eq_true, decide_eq_true_eq] at h
  exact perm_range_of_valid h.1.1 (fun x hx => h.1.2 x hx) h.2

theorem valid_ePerm_perm_range {c : Cube} (hw : wellFormed c) (hv : isValidCube c = true) :
    c.ePerm.Perm (List.range 12) := by
  unfold isValidCube at hv
  simp only [Bool.and_eq_true] at hv
  exact valid_perm_of_isValidPermutation hv.1.1.1.1.1.2

theorem valid_cPerm_perm_range {c : Cube} (hw : wellFormed c) (hv : isValidCube c = true) :
    c.cPerm.Perm (List.range 8) := by
  unfold isValidCube at hv
  simp only [Bool.and_eq_true] at hv
  exact valid_perm_of_isValidPermutation hv.1.1.1.1.1.1

theorem esliceMask_count {c : Cube} (hw : wellFormed c) (hv : isValidCube c = true) :
    (esliceMask c).countP id = 4 := by
  have hperm := valid_ePerm_perm_range hw hv
  unfold esliceMask
  have hmask : (List.range 12).map (fun i => decide (8 ≤ c.ePerm.getD i 0)) =
      c.ePerm.map (fun x => decide (8 ≤ x)) := by
    have h1 : (List.range 12).map (fun i => c.ePerm.getD i 0) = c.ePerm :=
      map_range_getD_self hw.2.2.1
    rw [← h1, List.map_map]
    rfl
  rw [hmask, List.countP_map, hperm.countP_eq (id ∘ fun x => decide (8 ≤ x))]
  decide

/-- C2 (amended, for the 495-valued `getESlice` of `part_003`): on every
well-formed valid cube the value is `494` minus the combinatorial-number-system
rank of the set of slots holding the four E-slice edges (the standard
reverse-lex rank), lies in `[0, 495)`, and is `0` exactly when those slots are
`{8, 9, 10, 11}`. -/
theorem c2_eslice_rank (c : Cube) (hw : wellFormed c) (hv : isValidCube c = true) :
    Coords495.getESlice c = specESliceRank c ∧
    Coords495.getESlice c < 495 ∧
    (Coords495.getESlice c = 0 ↔ eslicePositions c = [8, 9, 10, 11]) := by
  have hlt : ∀ x ∈ c.ePerm, x < 12 := by
    intro x hx
    have := (valid_ePerm_perm_range hw hv).mem_iff.mp hx
    simpa using this
  have hmask := esliceMask_count hw hv
  have hlen : (esliceMask c).length = 12 := by simp [esliceMask]
  have hcore := esliceMaskProp_all (esliceMask c) hlen hmask
  rw [getESlice_eq_mask, eslicePositions_eq_mask c hlt]
  unfold specESliceRank
  rw [eslicePositions_eq_mask c hlt]
  exact hcore

/-- Witness for C2 at the solved cube: value 0, rank 0, slice slots `8..11`. -/
theorem c2_eslice_rank_witness :
    Coords495.getESlice solvedCube = specESliceRank solvedCube ∧
    Coords495.getESlice solvedCube < 495 ∧
    (Coords495.getESlice solvedCube = 0 ↔ eslicePositions solvedCube = [8, 9, 10, 11]) :=
  c2_eslice_rank solvedCube (by decide) (by decide)

/-- A valid cube whose E-slice edges sit in slots `4..7` (swapped with the
D-layer edges). -/
def cubeSwapDE : Cube :=
  { cPerm := [0, 1, 2, 3, 4, 5, 6, 7]
    cOri := [0, 0, 0, 0, 0, 0, 0, 0]
    ePerm := [0, 1, 2, 3, 8, 9, 10, 11, 4, 5, 6, 7]
    eOri := [0, 0, 0, 0, 0, 0, 0, 0, 0, 0, 0, 0] }

/-- C2 counterexample: on the valid cube `cubeSwapDE` the `getESlice` of
`src/src/solver/kociemba/coordinates.ts` returns its misplaced count 4, not
the reverse-lex combinatorial rank 425 of the occupied position set (which the
`part_003` version does return). -/
theorem c2_counterexample :
    isValidCube cubeSwapDE = true ∧
    Coords5.getESlice cubeSwapDE = 4 ∧
    specESliceRank cubeSwapDE = 425 ∧
    Coords5.getESlice cubeSwapDE ≠ specESliceRank cubeSwapDE ∧
    Coords495.getESlice cubeSwapDE = 425 := by
  decide


/-! ### C9: determinism of `solve` up to wall-clock readings -/

theorem searchPhase1_time (T : Phase1Tables) (c : Phase1Coord) (d t : Nat) :
    searchPhase1 T c d t =
      Option.map (fun r => { r with timeMs := t }) (searchPhase1 T c d 0) := by
  unfold searchPhase1
  cases h : (c.eo == 0 && c.eslice == 0)
  · simp only [h, Bool.false_eq_true, if_false]
    split <;> rfl
  · simp only [h, if_true]
    rfl

theorem searchPhase2_time (T : Phase2Tables) (c : Phase2Coord) (d t : Nat) :
    searchPhase2 T c d t =
      Option.map (fun r => { r with timeMs := t }) (searchPhase2 T c d 0) := by
  unfold searchPhase2
  cases h : (c.cp == 0 && c.udep == 0 && c.ep == 0)
  · simp only [h, Bool.false_eq_true, if_false]
    split <;> rfl
  · simp only [h, if_true]
    rfl

/-- Replace the phase-1 wall-clock fields of a solver result. -/
def setP1Time (t : Nat) (s : Solution) : Solution :=
  { s with stats := { s.stats with
      phase1Stats := s.stats.phase1Stats.map (fun r => { r with timeMs := t })
      totalTimeMs := if s.stats.phase1Stats.isSome then t else s.stats.totalTimeMs } }

/-- Replace the phase-2 wall-clock fields of a solver result. -/
def setP2Time (t : Nat) (s : Solution) : Solution :=
  { s with stats := { s.stats with
      phase2Stats := s.stats.phase2Stats.map (fun r => { r with timeMs := t })
      totalTimeMs := if s.stats.phase2Stats.isSome then t else s.stats.totalTimeMs } }

theorem solvePhase1_time (T1 : Phase1Tables) (config : SolverConfig) (cube : Cube) (t : Nat) :
    solvePhase1 T1 config cube t = setP1Time t (solvePhase1 T1 config cube 0) := by
  unfold solvePhase1
  cases hg : Coords495.isInG1 cube
  · simp only [hg, Bool.false_eq_true, if_false]
    rw [searchPhase1_time]
    cases searchPhase1 T1 (getPhase1Coord cube) config.maxPhase1Depth 0 <;>
      simp [setP1Time]
  · simp [hg, setP1Time]

theorem solvePhase2_time (T2 : Phase2Tables) (config : SolverConfig) (cube : Cube) (t : Nat) :
    solvePhase2 T2 config cube t = setP2Time t (solvePhase2 T2 config cube 0) := by
  unfold solvePhase2
  cases hg : isSolved cube
  · simp only [hg, Bool.false_eq_true, if_false]
    rw [searchPhase2_time]
    cases searchPhase2 T2 (getPhase2Coord cube) config.maxPhase2Depth 0 <;>
      simp [setP2Time]
  · simp [hg, setP2Time]

theorem solve_proj_time (T1 : Phase1Tables) (T2 : Phase2Tables) (config : SolverConfig)
    (cube : Cube) (t1 t2 t3 : Nat) :
    (solve T1 T2 config cube t1 t2 t3).moves = (solve T1 T2 config cube 0 0 0).moves ∧
    (solve T1 T2 config cube t1 t2 t3).scramble = (solve T1 T2 config cube 0 0 0).scramble ∧
    (solve T1 T2 config cube t1 t2 t3).phase1Moves =
      (solve T1 T2 config cube 0 0 0).phase1Moves ∧
    (solve T1 T2 config cube t1 t2 t3).phase2Moves =
      (solve T1 T2 config cube 0 0 0).phase2Moves ∧
    (solve T1 T2 config cube t1 t2 t3).success = (solve T1 T2 config cube 0 0 0).success ∧
    (solve T1 T2 config cube t1 t2 t3).error = (solve T1 T2 config cube 0 0 0).error := by
  unfold solve
  rw [solvePhase1_time T1 config cube t1]
  cases hs : isSolved cube
  · simp only [hs, Bool.false_eq_true, if_false]
    cases hp1 : (solvePhase1 T1 config cube 0).success
    · simp [setP1Time, hp1]
    · simp only [setP1Time, hp1, Bool.not_true, Bool.false_eq_true, if_false]
      cases hg : Coords495.isInG1 ((solvePhase1 T1 config cube 0).phase1Moves.foldl
          (fun c moveKey => applyMove c (getMoveByKey moveKey)) cube)
      · simp [hg]
      · simp only [hg, Bool.not_true, Bool.false_eq_true, if_false]
        rw [solvePhase2_time T2 config _ t2]
        cases hp2 : (solvePhase2 T2 config ((solvePhase1 T1 config cube 0).phase1Moves.foldl
            (fun c moveKey => applyMove c (getMoveByKey moveKey)) cube) 0).success
        · simp [setP2Time, hp2]
        · simp only [setP2Time, hp2, Bool.not_true, Bool.false_eq_true, if_false]
          cases hv : verifySolution cube ((solvePhase1 T1 config cube 0).phase1Moves ++
              (solvePhase2 T2 config ((solvePhase1 T1 config cube 0).phase1Moves.foldl
                (fun c moveKey => applyMove c (getMoveByKey moveKey)) cube) 0).phase2Moves)
          · simp [hv]
          · simp [hv]
  · simp [hs]

/-- C9: `solve` is deterministic — two runs on the same tables, configuration
and cube agree on the solution move sequence, the scramble, the phase-1 and
phase-2 subsequences, the success flag and the error, whatever wall-clock
readings feed the two runs. -/
theorem c9_solve_deterministic (T1 : Phase1Tables) (T2 : Phase2Tables)
    (config : SolverConfig) (cube : Cube) (t1 t2 t3 u1 u2 u3 : Nat) :
    (solve T1 T2 config cube t1 t2 t3).moves = (solve T1 T2 config cube u1 u2 u3).moves ∧
    (solve T1 T2 config cube t1 t2 t3).scramble =
      (solve T1 T2 config cube u1 u2 u3).scramble ∧
    (solve T1 T2 config cube t1 t2 t3).phase1Moves =
      (solve T1 T2 config cube u1 u2 u3).phase1Moves ∧
    (solve T1 T2 config cube t1 t2 t3).phase2Moves =
      (solve T1 T2 config cube u1 u2 u3).phase2Moves ∧
    (solve T1 T2 config cube t1 t2 t3).success =
      (solve T1 T2 config cube u1 u2 u3).success ∧
    (solve T1 T2 config cube t1 t2 t3).error = (solve T1 T2 config cube u1 u2 u3).error := by
  have h := solve_proj_time T1 T2 config cube t1 t2 t3
  have h' := solve_proj_time T1 T2 config cube u1 u2 u3
  exact ⟨h.1.trans h'.1.symm, h.2.1.trans h'.2.1.symm, h.2.2.1.trans h'.2.2.1.symm,
    h.2.2.2.1.trans h'.2.2.2.1.symm, h.2.2.2.2.1.trans h'.2.2.2.2.1.symm,
    h.2.2.2.2.2.trans h'.2.2.2.2.2.symm⟩

/-! ### C10: `solve` does not mutate its argument

The JavaScript cube is a record of four heap-allocated arrays; mutation of the
input would be a write to one of those arrays.  The store is modelled as a
list of arrays and a cube as four store addresses; `applyMove` — the only
array-producing operation on the solver path — writes exclusively into the
four arrays it freshly allocates (`new Array(8)` / `new Array(12)`), which the
store model records by appending.  Threading the store through `solve` then
shows every pre-existing address, in particular the four arrays of the input
cube, unchanged at exit. -/

/-- The store of number arrays. -/
abbrev Heap := List (List Nat)

/-- A cube as four store addresses. -/
structure CubeRef where
  cPermA : Nat
  cOriA : Nat
  ePermA : Nat
  eOriA : Nat

/-- Dereference a cube: read its four arrays from the store. -/
def readCube (h : Heap) (r : CubeRef) : Cube :=
  ⟨List.getD h r.cPermA [], List.getD h r.cOriA [],
   List.getD h r.ePermA [], List.getD h r.eOriA []⟩

/-- `applyMove` on the store: read the argument, allocate the four result
arrays (`new Array(8)` / `new Array(12)` in the source), fill them. -/
def applyMoveH (h : Heap) (r : CubeRef) (m : MoveTable) : Heap × CubeRef :=
  let res := applyMove (readCube h r) m
  (h ++ [res.cPerm, res.cOri, res.ePerm, res.eOri],
   ⟨h.length, h.length + 1, h.length + 2, h.length + 3⟩)

/-- The `for (const move of moves) cube = applyMove(cube, ...)` loops of
`solver.ts`, on the store. -/
def foldApplyH (h : Heap) (r : CubeRef) (keys : List String) : Heap × CubeRef :=
  keys.foldl (fun (st : Heap × CubeRef) k => applyMoveH st.1 st.2 (getMoveByKey k)) (h, r)

def lengthH (h : Heap) : Nat := List.length h

theorem foldApplyH_grows (keys : List String) : ∀ (h : Heap) (r : CubeRef),
    List.IsPrefix h (foldApplyH h r keys).1 := by
  induction keys with
  | nil => intro h r; exact List.prefix_refl h
  | cons k rest ih =>
    intro h r
    have h1 : List.IsPrefix h (applyMoveH h r (getMoveByKey k)).1 := by
      unfold applyMoveH
      exact List.prefix_append h _
    have h2 := ih (applyMoveH h r (getMoveByKey k)).1 (applyMoveH h r (getMoveByKey k)).2
    unfold foldApplyH at h2 ⊢
    simp only [List.foldl_cons]
    exact h1.trans h2

theorem getD_heap_grow {h h' : Heap} (hp : List.IsPrefix h h') {i : Nat}
    (hi : i < lengthH h) : List.getD h' i [] = List.getD h i [] := by
  obtain ⟨t, rfl⟩ := hp
  unfold lengthH at hi
  rw [List.getD_append _ _ _ _ hi]

theorem readCube_grow {h h' : Heap} (hp : List.IsPrefix h h') {r : CubeRef}
    (h1 : r.cPermA < lengthH h) (h2 : r.cOriA < lengthH h)
    (h3 : r.ePermA < lengthH h) (h4 : r.eOriA < lengthH h) :
    readCube h' r = readCube h r := by
  unfold readCube
  rw [getD_heap_grow hp h1, getD_heap_grow hp h2, getD_heap_grow hp h3,
    getD_heap_grow hp h4]

theorem getD_append_self (h : Heap) (l : List (List Nat)) (j : Nat) :
    List.getD (h ++ l) (h.length + j) [] = List.getD l j [] := by
  rw [List.getD_append_right _ _ _ _ (by omega)]
  congr 1
  omega

theorem readCube_append4 (h : Heap) (a b c d : List Nat) :
    readCube (h ++ [a, b, c, d]) ⟨h.length, h.length + 1, h.length + 2, h.length + 3⟩ =
      ⟨a, b, c, d⟩ := by
  unfold readCube
  have h0 := getD_append_self h [a, b, c, d] 0
  have h1 := getD_append_self h [a, b, c, d] 1
  have h2 := getD_append_self h [a, b, c, d] 2
  have h3 := getD_append_self h [a, b, c, d] 3
  simp only [Nat.add_zero] at h0
  simp only [h0, h1, h2, h3]
  rfl

theorem applyMoveH_read (h : Heap) (r : CubeRef) (m : MoveTable) :
    readCube (applyMoveH h r m).1 (applyMoveH h r m).2 = applyMove (readCube h r) m := by
  unfold applyMoveH
  exact readCube_append4 h _ _ _ _

theorem foldApplyH_read (keys : List String) : ∀ (h : Heap) (r : CubeRef),
    readCube (foldApplyH h r keys).1 (foldApplyH h r keys).2 =
      keys.foldl (fun c k => applyMove c (getMoveByKey k)) (readCube h r) := by
  induction keys with
  | nil => intro h r; rfl
  | cons k rest ih =>
    intro h r
    have step := applyMoveH_read h r (getMoveByKey k)
    have ihs := ih (applyMoveH h r (getMoveByKey k)).1 (applyMoveH h r (getMoveByKey k)).2
    unfold foldApplyH at ihs ⊢
    simp only [List.foldl_cons]
    rw [ihs, step]

/-- `solve` on the store: identical control flow and results, with the store
threaded through the two move-applying loops. -/
def solveH (T1 : Phase1Tables) (T2 : Phase2Tables) (config : SolverConfig)
    (h : Heap) (r : CubeRef) (tPhase1 tPhase2 tTotal : Nat) : Solution × Heap :=
  if isSolved (readCube h r) then
    ({ moves := [], scramble := [], phase1Moves := [], phase2Moves := []
       stats := ⟨none, none, 0, 0, 0⟩, success := true, error := none }, h)
  else
    let phase1Result := solvePhase1 T1 config (readCube h r) tPhase1
    if !phase1Result.success then (phase1Result, h)
    else
      let st := foldApplyH h r phase1Result.phase1Moves
      let statsA : SearchStats :=
        ⟨phase1Result.stats.phase1Stats, none, 0, phase1Result.stats.totalNodes, 0⟩
      if !Coords495.isInG1 (readCube st.1 st.2) then
        ({ moves := [], scramble := [], phase1Moves := [], phase2Moves := []
           stats := statsA, success := false
           error := some "Failed to reach G1 subgroup in Phase 1" }, st.1)
      else
        let phase2Result := solvePhase2 T2 config (readCube st.1 st.2) tPhase2
        if !phase2Result.success then
          ({ phase2Result with
             phase1Moves := phase1Result.phase1Moves
             stats := ⟨statsA.phase1Stats, phase2Result.stats.phase2Stats, 0,
               statsA.totalNodes + phase2Result.stats.totalNodes, 0⟩ }, st.1)
        else
          let statsB : SearchStats :=
            ⟨statsA.phase1Stats, phase2Result.stats.phase2Stats,
              phase1Result.phase1Moves.length + phase2Result.phase2Moves.length,
              statsA.totalNodes + phase2Result.stats.totalNodes, tTotal⟩
          let solution := phase1Result.phase1Moves ++ phase2Result.phase2Moves
          let scramble := invertMoveSequence solution
          let stv := foldApplyH st.1 r solution
          if !isSolved (readCube stv.1 stv.2) then
            ({ moves := solution, scramble := scramble
               phase1Moves := phase1Result.phase1Moves
               phase2Moves := phase2Result.phase2Moves
               stats := statsB, success := false
               error := some "Solution verification failed: Solution does not result in solved cube" }, stv.1)
          else
            ({ moves := solution, scramble := scramble
               phase1Moves := phase1Result.phase1Moves
               phase2Moves := phase2Result.phase2Moves
               stats := statsB, success := true, error := none }, stv.1)

/-- C10: `solve` leaves its argument unchanged.  In the store model, running
the solver from any cube (four valid store addresses) leaves the four arrays
of the input cube with their pre-call contents, and the result is exactly the
pure `solve` of the dereferenced input. -/
theorem c10_solve_frame (T1 : Phase1Tables) (T2 : Phase2Tables) (config : SolverConfig)
    (h : Heap) (r : CubeRef) (t1 t2 t3 : Nat)
    (h1 : r.cPermA < lengthH h) (h2 : r.cOriA < lengthH h)
    (h3 : r.ePermA < lengthH h) (h4 : r.eOriA < lengthH h) :
    readCube (solveH T1 T2 config h r t1 t2 t3).2 r = readCube h r ∧
    (solveH T1 T2 config h r t1 t2 t3).1 =
      solve T1 T2 config (readCube h r) t1 t2 t3 := by
  set P1 := solvePhase1 T1 config (readCube h r) t1 with hP1
  have hpre1 := foldApplyH_grows P1.phase1Moves h r
  have hread1 := foldApplyH_read P1.phase1Moves h r
  set st := foldApplyH h r P1.phase1Moves with hst
  have hrch : readCube st.1 r = readCube h r := readCube_grow hpre1 h1 h2 h3 h4
  have hlen1 : lengthH h ≤ lengthH st.1 := hpre1.length_le
  set icube := P1.phase1Moves.foldl (fun c k => applyMove c (getMoveByKey k)) (readCube h r)
    with hicube
  set P2 := solvePhase2 T2 config icube t2 with hP2
  set sol := P1.phase1Moves ++ P2.phase2Moves with hsol
  have hpre2 := foldApplyH_grows sol st.1 r
  have hread2 := foldApplyH_read sol st.1 r
  set stv := foldApplyH st.1 r sol with hstv
  have hrcv : readCube stv.1 r = readCube h r := by
    rw [readCube_grow hpre2 (by omega) (by omega) (by omega) (by omega), hrch]
  rw [hrch] at hread2
  unfold solveH solve verifySolution
  simp only [← hst, hread1, ← hP1, ← hicube, ← hP2, ← hsol, ← hstv, hread2]
  cases hs : isSolved (readCube h r)
  · simp only [hs, Bool.false_eq_true, if_false]
    cases hp1 : P1.success
    · simp only [hp1, Bool.not_false, if_true]
      exact ⟨trivial, trivial⟩
    · simp only [hp1, Bool.not_true, Bool.false_eq_true, if_false]
      cases hg : Coords495.isInG1 icube
      · simp only [hg, Bool.not_false, if_true]
        exact ⟨hrch, trivial⟩
      · simp only [hg, Bool.not_true, Bool.false_eq_true, if_false]
        cases hp2 : P2.success
        · simp only [hp2, Bool.not_false, if_true]
          exact ⟨hrch, trivial⟩
        · simp only [hp2, Bool.not_true, Bool.false_eq_true, if_false]
          cases hv : isSolved (sol.foldl (fun c k => applyMove c (getMoveByKey k))
              (readCube h r))
          · simp only [hv, Bool.not_false, if_true]
            exact ⟨hrcv, trivial⟩
          · simp only [hv, Bool.not_true, Bool.false_eq_true, if_false]
            exact ⟨hrcv, trivial⟩
  · simp only [hs, if_true]
    exact ⟨trivial, trivial⟩

/-- Search tables with constant-zero heuristic and identity move action, used
to instantiate the solver theorems at concrete inputs. -/
def trivialPhase1Tables : Phase1Tables :=
  ⟨fun _ _ _ => 0, fun k _ => k, fun k _ => k, fun k _ => k⟩

/-- Phase-2 counterpart of `trivialPhase1Tables`. -/
def trivialPhase2Tables : Phase2Tables :=
  ⟨fun _ _ _ => 0, fun k _ => k, fun k _ => k, fun k _ => k⟩

/-- A store holding the four arrays of the solved cube. -/
def heap0 : Heap := [solvedCube.cPerm, solvedCube.cOri, solvedCube.ePerm, solvedCube.eOri]

/-- The cube whose four addresses point at the arrays of `heap0`. -/
def ref0 : CubeRef := ⟨0, 1, 2, 3⟩

/-- Witness for C10 at a concrete store: the four input arrays survive the
call and the result agrees with the pure `solve`. -/
theorem c10_solve_frame_witness :
    readCube (solveH trivialPhase1Tables trivialPhase2Tables DEFAULT_CONFIG
        heap0 ref0 0 0 0).2 ref0 = readCube heap0 ref0 ∧
    (solveH trivialPhase1Tables trivialPhase2Tables DEFAULT_CONFIG heap0 ref0 0 0 0).1 =
      solve trivialPhase1Tables trivialPhase2Tables DEFAULT_CONFIG
        (readCube heap0 ref0) 0 0 0 :=
  c10_solve_frame trivialPhase1Tables trivialPhase2Tables DEFAULT_CONFIG heap0 ref0 0 0 0
    (by decide) (by decide) (by decide) (by decide)

/-! ### C3: behaviour of `solve` on invariant-violating cubes -/

/-- The spec's state invariants 1, 3 and 4: valid permutations and
orientation sums divisible by 3 resp. 2. -/
def sumPermInvariants (c : Cube) : Bool :=
  decide (c.cPerm.Perm (List.range 8)) && decide (c.ePerm.Perm (List.range 12)) &&
  ((c.cOri.foldl (· + ·) 0) % 3 == 0) && ((c.eOri.foldl (· + ·) 0) % 2 == 0)

/-- A move table with valid slot permutations, orientation deltas summing to
zero in the respective modulus, delta arrays of the right length and edge
deltas in `{0, 1}`.  All eighteen generated move tables satisfy this. -/
def validTable (m : MoveTable) : Bool :=
  decide (m.cornerPerm.Perm (List.range 8)) && decide (m.edgePerm.Perm (List.range 12)) &&
  ((m.cornerOriDelta.foldl (· + ·) 0) % 3 == 0) &&
  ((m.edgeOriDelta.foldl (· + ·) 0) % 2 == 0) &&
  m.cornerOriDelta.length == 8 && m.edgeOriDelta.length == 12 &&
  m.edgeOriDelta.all (fun d => decide (d < 2))

set_option maxHeartbeats 1000000 in
theorem allTablesValid : ∀ m ∈ MOVE_TABLES, validTable m = true := by decide

theorem lookup_mem_snd {l : List (String × MoveTable)} {k : String} {v : MoveTable}
    (h : l.lookup k = some v) : v ∈ l.map Prod.snd := by
  induction l with
  | nil => simp [List.lookup] at h
  | cons p rest ih =>
    obtain ⟨a, b⟩ := p
    simp only [List.lookup] at h
    split at h
    · simp only [Option.some.injEq] at h
      subst h
      simp
    · simp [ih h]

set_option maxHeartbeats 1000000 in
theorem getMoveByKey_mem (key : String) : getMoveByKey key ∈ MOVE_TABLES := by
  unfold getMoveByKey
  cases h : (MOVE_KEYS.zip MOVE_TABLES).lookup key with
  | none =>
    simp only [h, Option.getD_none]
    decide
  | some m =>
    simp only [h, Option.getD_some]
    have hmem := lookup_mem_snd h
    rw [show (MOVE_KEYS.zip MOVE_TABLES).map Prod.snd = MOVE_TABLES from rfl] at hmem
    exact hmem

theorem foldl_add_eq_add_sum (l : List Nat) : ∀ a : Nat, l.foldl (· + ·) a = a + l.sum := by
  induction l with
  | nil => intro a; simp
  | cons x rest ih =>
    intro a
    simp only [List.foldl_cons, List.sum_cons, ih]
    omega

theorem sum_map_mod (l : List Nat) (f : Nat → Nat) (k : Nat) :
    (l.map (fun i => f i % k)).sum % k = (l.map f).sum % k := by
  induction l with
  | nil => rfl
  | cons x rest ih =>
    simp only [List.map_cons, List.sum_cons]
    rw [Nat.add_mod, ih, Nat.mod_mod_of_dvd _ (dvd_refl k), ← Nat.add_mod]

theorem sum_map_add (l : List Nat) (f g : Nat → Nat) :
    (l.map (fun i => f i + g i)).sum = (l.map f).sum + (l.map g).sum := by
  induction l with
  | nil => rfl
  | cons x rest ih =>
    simp only [List.map_cons, List.sum_cons, ih]
    omega

theorem map_comp_perm {σs : List Nat} {n : Nat} (hp : σs.Perm (List.range n))
    (f : Nat → Nat) :
    ((List.range n).map (fun i => f (σs.getD i 0))).Perm ((List.range n).map f) := by
  have hlen : σs.length = n := by simpa using hp.length_eq
  have he : (List.range n).map (fun i => f (σs.getD i 0)) = σs.map f := by
    rw [show (fun i => f (σs.getD i 0)) = f ∘ (fun i => σs.getD i 0) from rfl,
      ← List.map_map, map_range_getD_self hlen]
  rw [he]
  exact hp.map f

theorem xor_mod_two (x d : Nat) (hd : d < 2) : (x ^^^ d) % 2 = (x + d) % 2 := by
  interval_cases d
  · simp
  · have hbit := Nat.testBit_xor x 1 0
    simp only [Nat.testBit_zero] at hbit
    have h1 : (1 : Nat) % 2 = 1 := rfl
    rcases Nat.mod_two_eq_zero_or_one x with hx | hx <;>
      rcases Nat.mod_two_eq_zero_or_one (x ^^^ 1) with hy | hy <;>
      simp [hx, hy] at hbit ⊢ <;> omega

theorem applyMove_wellFormed (c : Cube) (m : MoveTable) : wellFormed (applyMove c m) := by
  unfold wellFormed applyMove
  simp

theorem sumPermInvariants_applyMove (c : Cube) (m : MoveTable) (hw : wellFormed c)
    (hm : validTable m = true) :
    sumPermInvariants (applyMove c m) = sumPermInvariants c := by
  unfold validTable at hm
  simp only [Bool.and_eq_true, beq_iff_eq, decide_eq_true_eq, List.all_eq_true] at hm
  obtain ⟨⟨⟨⟨⟨⟨hcσ, heσ⟩, hcd⟩, hed⟩, hcl⟩, hel⟩, hedlt⟩ := hm
  have hcperm : ((List.range 8).map (fun i => c.cPerm.getD (m.cornerPerm.getD i 0) 0)).Perm
      c.cPerm := by
    have := map_comp_perm hcσ (fun j => c.cPerm.getD j 0)
    rw [map_range_getD_self hw.1] at this
    exact this
  have heperm : ((List.range 12).map (fun i => c.ePerm.getD (m.edgePerm.getD i 0) 0)).Perm
      c.ePerm := by
    have := map_comp_perm heσ (fun j => c.ePerm.getD j 0)
    rw [map_range_getD_self hw.2.2.1] at this
    exact this
  have hco : (((List.range 8).map (fun i =>
      (c.cOri.getD (m.cornerPerm.getD i 0) 0 + m.cornerOriDelta.getD i 0) % 3)).sum) % 3 =
      c.cOri.sum % 3 := by
    rw [sum_map_mod, sum_map_add]
    have h1 : ((List.range 8).map (fun i => c.cOri.getD (m.cornerPerm.getD i 0) 0)).sum =
        c.cOri.sum := by
      have := (map_comp_perm hcσ (fun j => c.cOri.getD j 0)).sum_eq
      rw [map_range_getD_self hw.2.1] at this
      exact this
    have h2 : ((List.range 8).map (fun i => m.cornerOriDelta.getD i 0)).sum =
        m.cornerOriDelta.sum := by
      rw [map_range_getD_self hcl]
    have h3 : m.cornerOriDelta.sum % 3 = 0 := by
      rw [foldl_add_eq_add_sum] at hcd
      simpa using hcd
    omega
  have hxorsum : ∀ (l : List Nat) (f g : Nat → Nat), (∀ i ∈ l, g i < 2) →
      ((l.map (fun i => f i ^^^ g i)).sum) % 2 = ((l.map (fun i => f i + g i)).sum) % 2 := by
    intro l f g hg
    induction l with
    | nil => rfl
    | cons x rest ih =>
      have hx := xor_mod_two (f x) (g x) (hg x (by simp))
      have ihr := ih (fun i hi => hg i (by simp [hi]))
      simp only [List.map_cons, List.sum_cons]
      omega
  have heo : (((List.range 12).map (fun i =>
      (c.eOri.getD (m.edgePerm.getD i 0) 0) ^^^ (m.edgeOriDelta.getD i 0))).sum) % 2 =
      c.eOri.sum % 2 := by
    have hdlt : ∀ i ∈ List.range 12, m.edgeOriDelta.getD i 0 < 2 := by
      intro i hi
      rcases Nat.lt_or_ge i m.edgeOriDelta.length with hil | hil
      · exact hedlt _ (getD_mem_of_lt hil)
      · rw [List.getD_eq_default _ _ hil]; omega
    rw [hxorsum (List.range 12) _ _ hdlt, sum_map_add]
    have h1 : ((List.range 12).map (fun i => c.eOri.getD (m.edgePerm.getD i 0) 0)).sum =
        c.eOri.sum := by
      have := (map_comp_perm heσ (fun j => c.eOri.getD j 0)).sum_eq
      rw [map_range_getD_self hw.2.2.2] at this
      exact this
    have h2 : ((List.range 12).map (fun i => m.edgeOriDelta.getD i 0)).sum =
        m.edgeOriDelta.sum := by
      rw [map_range_getD_self hel]
    have h3 : m.edgeOriDelta.sum % 2 = 0 := by
      rw [foldl_add_eq_add_sum] at hed
      simpa using hed
    omega
  have e1 : decide ((applyMove c m).cPerm.Perm (List.range 8)) =
      decide (c.cPerm.Perm (List.range 8)) :=
    decide_eq_decide.mpr ⟨fun h => hcperm.symm.trans h, fun h => hcperm.trans h⟩
  have e2 : decide ((applyMove c m).ePerm.Perm (List.range 12)) =
      decide (c.ePerm.Perm (List.range 12)) :=
    decide_eq_decide.mpr ⟨fun h => heperm.symm.trans h, fun h => heperm.trans h⟩
  have e3 : (((applyMove c m).cOri.foldl (· + ·) 0) % 3 == 0) =
      ((c.cOri.foldl (· + ·) 0) % 3 == 0) := by
    rw [foldl_add_eq_add_sum, foldl_add_eq_add_sum]
    simp only [Nat.zero_add]
    exact congrArg (fun x => x == 0) hco
  have e4 : (((applyMove c m).eOri.foldl (· + ·) 0) % 2 == 0) =
      ((c.eOri.foldl (· + ·) 0) % 2 == 0) := by
    rw [foldl_add_eq_add_sum, foldl_add_eq_add_sum]
    simp only [Nat.zero_add]
    exact congrArg (fun x => x == 0) heo
  unfold sumPermInvariants
  rw [e1, e2, e3, e4]

theorem sumPermInvariants_foldl (keys : List String) : ∀ (c : Cube), wellFormed c →
    sumPermInvariants (keys.foldl (fun c k => applyMove c (getMoveByKey k)) c) =
      sumPermInvariants c := by
  induction keys with
  | nil => intro c _; rfl
  | cons k rest ih =>
    intro c hw
    simp only [List.foldl_cons]
    rw [ih _ (applyMove_wellFormed c _),
      sumPermInvariants_applyMove c _ hw (allTablesValid _ (getMoveByKey_mem k))]

theorem isSolved_eq {c : Cube} (h : isSolved c = true) : c = solvedCube := by
  unfold isSolved cubesEqual at h
  simp only [Bool.and_eq_true, beq_iff_eq] at h
  obtain ⟨⟨⟨h1, h2⟩, h3⟩, h4⟩ := h
  cases c
  simp only at h1 h2 h3 h4
  simp [solvedCube, h1, h2, h3, h4]

/-- C3 (amended): `solve` performs no input validation and has no InvalidInput
error — an invalid cube is searched like any other (see the counterexample) —
but a well-formed cube that violates the spec's permutation-validity or
orientation-sum invariants can never produce a successful solution. -/
theorem c3_no_success_on_invalid (T1 : Phase1Tables) (T2 : Phase2Tables)
    (config : SolverConfig) (cube : Cube) (t1 t2 t3 : Nat)
    (hw : wellFormed cube) (hbad : sumPermInvariants cube = false) :
    (solve T1 T2 config cube t1 t2 t3).success = false := by
  unfold solve
  cases hs : isSolved cube
  · simp only [hs, Bool.false_eq_true, if_false]
    cases hp1 : (solvePhase1 T1 config cube t1).success
    · simp only [hp1, Bool.not_false, if_true]
    · simp only [hp1, Bool.not_true, Bool.false_eq_true, if_false]
      cases hg : Coords495.isInG1 ((solvePhase1 T1 config cube t1).phase1Moves.foldl
          (fun c moveKey => applyMove c (getMoveByKey moveKey)) cube)
      · simp only [hg, Bool.not_false, if_true]
      · simp only [hg, Bool.not_true, Bool.false_eq_true, if_false]
        cases hp2 : (solvePhase2 T2 config ((solvePhase1 T1 config cube t1).phase1Moves.foldl
            (fun c moveKey => applyMove c (getMoveByKey moveKey)) cube) t2).success
        · simp only [hp2, Bool.not_false, if_true]
        · simp only [hp2, Bool.not_true, Bool.false_eq_true, if_false]
          cases hv : verifySolution cube ((solvePhase1 T1 config cube t1).phase1Moves ++
              (solvePhase2 T2 config ((solvePhase1 T1 config cube t1).phase1Moves.foldl
                (fun c moveKey => applyMove c (getMoveByKey moveKey)) cube) t2).phase2Moves)
          · simp only [hv, Bool.not_false, if_true]
          · exfalso
            unfold verifySolution at hv
            have hsolved := isSolved_eq hv
            have hinv := sumPermInvariants_foldl ((solvePhase1 T1 config cube t1).phase1Moves ++
              (solvePhase2 T2 config ((solvePhase1 T1 config cube t1).phase1Moves.foldl
                (fun c moveKey => applyMove c (getMoveByKey moveKey)) cube) t2).phase2Moves)
              cube hw
            rw [hsolved, hbad] at hinv
            exact absurd hinv.symm (by decide)
  · exfalso
    have := isSolved_eq hs
    rw [this] at hbad
    exact absurd hbad (by decide)

/-- The cube differing from solved only in `eo[0] = 1`. -/
def cubeEOFlip : Cube :=
  { cPerm := [0, 1, 2, 3, 4, 5, 6, 7]
    cOri := [0, 0, 0, 0, 0, 0, 0, 0]
    ePerm := [0, 1, 2, 3, 4, 5, 6, 7, 8, 9, 10, 11]
    eOri := [1, 0, 0, 0, 0, 0, 0, 0, 0, 0, 0, 0] }

/-- C3 counterexample: on the §3-invalid cube with only `eo[0]` flipped the
solver does not refuse to proceed — there is no InvalidInput error.  It runs
the phase-1 search and reports a search failure instead. -/
theorem c3_counterexample :
    isValidCube cubeEOFlip = false ∧
    sumPermInvariants cubeEOFlip = false ∧
    (solve trivialPhase1Tables trivialPhase2Tables ⟨1, 1, 30, false⟩
        cubeEOFlip 0 0 0).success = false ∧
    (solve trivialPhase1Tables trivialPhase2Tables ⟨1, 1, 30, false⟩
        cubeEOFlip 0 0 0).error = some "Phase 1 search failed (max depth: 1)" := by
  decide

/-- Witness for C3 at the flipped-edge cube with identity-action tables. -/
theorem c3_no_success_on_invalid_witness :
    (solve trivialPhase1Tables trivialPhase2Tables DEFAULT_CONFIG
        cubeEOFlip 0 0 0).success = false :=
  c3_no_success_on_invalid trivialPhase1Tables trivialPhase2Tables DEFAULT_CONFIG
    cubeEOFlip 0 0 0 (by decide) (by decide)

/-! ### C1: coordinate equivariance -/

theorem mod2_xor (x y : Nat) : (x % 2) ^^^ (y % 2) = (x % 2 + y % 2) % 2 := by
  rcases Nat.mod_two_eq_zero_or_one x with h1 | h1 <;>
    rcases Nat.mod_two_eq_zero_or_one y with h2 | h2 <;>
    rw [h1, h2] <;> rfl

theorem eo_recover_core (cc : Cube) (e0 e1 e2 e3 e4 e5 e6 e7 e8 e9 e10 e11 : Nat)
    (hcc : cc.eOri = [e0, e1, e2, e3, e4, e5, e6, e7, e8, e9, e10, e11])
    (hb : e0 < 2 ∧ e1 < 2 ∧ e2 < 2 ∧ e3 < 2 ∧ e4 < 2 ∧ e5 < 2 ∧ e6 < 2 ∧ e7 < 2 ∧
      e8 < 2 ∧ e9 < 2 ∧ e10 < 2 ∧ e11 < 2)
    (hs : (e0 + e1 + e2 + e3 + e4 + e5 + e6 + e7 + e8 + e9 + e10 + e11) % 2 = 0) :
    (setEdgeOrientation solvedCube (getEdgeOrientation cc)).eOri = cc.eOri := by
  obtain ⟨h0, h1, h2, h3, h4, h5, h6, h7, h8, h9, h10, h11⟩ := hb
  have hrev : (List.range 11).reverse = [10, 9, 8, 7, 6, 5, 4, 3, 2, 1, 0] := by decide
  have hr : List.range 11 = [0, 1, 2, 3, 4, 5, 6, 7, 8, 9, 10] := by decide
  have hK : getEdgeOrientation cc = ((((((((((e0 * 2 + e1) * 2 + e2) * 2 + e3) * 2 + e4) * 2 + e5) * 2 + e6) * 2 + e7) * 2 + e8) * 2 + e9) * 2 + e10) := by
    unfold getEdgeOrientation
    rw [hcc]
    simp only [hr, List.foldl_cons, List.foldl_nil]
    norm_num [List.getD, List.get?]
    rw [shiftLor _ _ (by omega), shiftLor _ _ (by omega), shiftLor _ _ (by omega),
      shiftLor _ _ (by omega), shiftLor _ _ (by omega), shiftLor _ _ (by omega),
      shiftLor _ _ (by omega), shiftLor _ _ (by omega), shiftLor _ _ (by omega),
      shiftLor _ _ (by omega)]
    omega
  unfold setEdgeOrientation
  rw [hcc, hK]
  simp only [hrev, List.foldl_cons, List.foldl_nil]
  simp only [Nat.shiftRight_eq_div_pow]
  norm_num [List.set, List.getD, List.get?, Nat.and_one_is_mod]
  have hq1 : ((((((((((e0 * 2 + e1) * 2 + e2) * 2 + e3) * 2 + e4) * 2 + e5) * 2 + e6) * 2 + e7) * 2 + e8) * 2 + e9) * 2 + e10) / 2 = (((((((((e0 * 2 + e1) * 2 + e2) * 2 + e3) * 2 + e4) * 2 + e5) * 2 + e6) * 2 + e7) * 2 + e8) * 2 + e9) := by omega
  have hq2 : ((((((((((e0 * 2 + e1) * 2 + e2) * 2 + e3) * 2 + e4) * 2 + e5) * 2 + e6) * 2 + e7) * 2 + e8) * 2 + e9) * 2 + e10) / 2 / 2 = ((((((((e0 * 2 + e1) * 2 + e2) * 2 + e3) * 2 + e4) * 2 + e5) * 2 + e6) * 2 + e7) * 2 + e8) := by omega
  have hq3 : ((((((((((e0 * 2 + e1) * 2 + e2) * 2 + e3) * 2 + e4) * 2 + e5) * 2 + e6) * 2 + e7) * 2 + e8) * 2 + e9) * 2 + e10) / 2 / 2 / 2 = (((((((e0 * 2 + e1) * 2 + e2) * 2 + e3) * 2 + e4) * 2 + e5) * 2 + e6) * 2 + e7) := by omega
  have hq4 : ((((((((((e0 * 2 + e1) * 2 + e2) * 2 + e3) * 2 + e4) * 2 + e5) * 2 + e6) * 2 + e7) * 2 + e8) * 2 + e9) * 2 + e10) / 2 / 2 / 2 / 2 = ((((((e0 * 2 + e1) * 2 + e2) * 2 + e3) * 2 + e4) * 2 + e5) * 2 + e6) := by omega
  have hq5 : ((((((((((e0 * 2 + e1) * 2 + e2) * 2 + e3) * 2 + e4) * 2 + e5) * 2 + e6) * 2 + e7) * 2 + e8) * 2 + e9) * 2 + e10) / 2 / 2 / 2 / 2 / 2 = (((((e0 * 2 + e1) * 2 + e2) * 2 + e3) * 2 + e4) * 2 + e5) := by omega
  have hq6 : ((((((((((e0 * 2 + e1) * 2 + e2) * 2 + e3) * 2 + e4) * 2 + e5) * 2 + e6) * 2 + e7) * 2 + e8) * 2 + e9) * 2 + e10) / 2 / 2 / 2 / 2 / 2 / 2 = ((((e0 * 2 + e1) * 2 + e2) * 2 + e3) * 2 + e4) := by omega
  have hq7 : ((((((((((e0 * 2 + e1) * 2 + e2) * 2 + e3) * 2 + e4) * 2 + e5) * 2 + e6) * 2 + e7) * 2 + e8) * 2 + e9) * 2 + e10) / 2 / 2 / 2 / 2 / 2 / 2 / 2 = (((e0 * 2 + e1) * 2 + e2) * 2 + e3) := by omega
  have hq8 : ((((((((((e0 * 2 + e1) * 2 + e2) * 2 + e3) * 2 + e4) * 2 + e5) * 2 + e6) * 2 + e7) * 2 + e8) * 2 + e9) * 2 + e10) / 2 / 2 / 2 / 2 / 2 / 2 / 2 / 2 = ((e0 * 2 + e1) * 2 + e2) := by omega
  have hq9 : ((((((((((e0 * 2 + e1) * 2 + e2) * 2 + e3) * 2 + e4) * 2 + e5) * 2 + e6) * 2 + e7) * 2 + e8) * 2 + e9) * 2 + e10) / 2 / 2 / 2 / 2 / 2 / 2 / 2 / 2 / 2 = (e0 * 2 + e1) := by omega
  have hq10 : ((((((((((e0 * 2 + e1) * 2 + e2) * 2 + e3) * 2 + e4) * 2 + e5) * 2 + e6) * 2 + e7) * 2 + e8) * 2 + e9) * 2 + e10) / 2 / 2 / 2 / 2 / 2 / 2 / 2 / 2 / 2 / 2 = e0 := by omega
  rw [hq10, hq9, hq8, hq7, hq6, hq5, hq4, hq3, hq2, hq1]
  simp only [Nat.zero_xor, mod2_xor]
  omega

theorem co_recover_core (cc : Cube) (a0 a1 a2 a3 a4 a5 a6 a7 : Nat)
    (hcc : cc.cOri = [a0, a1, a2, a3, a4, a5, a6, a7])
    (hb : a0 < 3 ∧ a1 < 3 ∧ a2 < 3 ∧ a3 < 3 ∧ a4 < 3 ∧ a5 < 3 ∧ a6 < 3 ∧ a7 < 3)
    (hs : (a0 + a1 + a2 + a3 + a4 + a5 + a6 + a7) % 3 = 0) :
    (setCornerOrientation solvedCube (getCornerOrientation cc)).cOri = cc.cOri := by
  obtain ⟨h0, h1, h2, h3, h4, h5, h6, h7⟩ := hb
  have hrev : (List.range 7).reverse = [6, 5, 4, 3, 2, 1, 0] := by decide
  have hr : List.range 7 = [0, 1, 2, 3, 4, 5, 6] := by decide
  have hK : getCornerOrientation cc = ((((((a0 * 3 + a1) * 3 + a2) * 3 + a3) * 3 + a4) * 3 + a5) * 3 + a6) := by
    unfold getCornerOrientation
    rw [hcc]
    simp only [hr, List.foldl_cons, List.foldl_nil]
    norm_num [List.getD, List.get?]
  unfold setCornerOrientation
  rw [hcc, hK]
  simp only [hrev, List.foldl_cons, List.foldl_nil]
  norm_num [List.set, List.getD, List.get?]
  have hq1 : ((((((a0 * 3 + a1) * 3 + a2) * 3 + a3) * 3 + a4) * 3 + a5) * 3 + a6) / 3 = (((((a0 * 3 + a1) * 3 + a2) * 3 + a3) * 3 + a4) * 3 + a5) := by omega
  have hq2 : ((((((a0 * 3 + a1) * 3 + a2) * 3 + a3) * 3 + a4) * 3 + a5) * 3 + a6) / 3 / 3 = ((((a0 * 3 + a1) * 3 + a2) * 3 + a3) * 3 + a4) := by omega
  have hq3 : ((((((a0 * 3 + a1) * 3 + a2) * 3 + a3) * 3 + a4) * 3 + a5) * 3 + a6) / 3 / 3 / 3 = (((a0 * 3 + a1) * 3 + a2) * 3 + a3) := by omega
  have hq4 : ((((((a0 * 3 + a1) * 3 + a2) * 3 + a3) * 3 + a4) * 3 + a5) * 3 + a6) / 3 / 3 / 3 / 3 = ((a0 * 3 + a1) * 3 + a2) := by omega
  have hq5 : ((((((a0 * 3 + a1) * 3 + a2) * 3 + a3) * 3 + a4) * 3 + a5) * 3 + a6) / 3 / 3 / 3 / 3 / 3 = (a0 * 3 + a1) := by omega
  have hq6 : ((((((a0 * 3 + a1) * 3 + a2) * 3 + a3) * 3 + a4) * 3 + a5) * 3 + a6) / 3 / 3 / 3 / 3 / 3 / 3 = a0 := by omega
  rw [hq6, hq5, hq4, hq3, hq2, hq1]
  omega

theorem eOri_literal {c : Cube} (h : c.eOri.length = 12) :
    c.eOri = [c.eOri.getD 0 0, c.eOri.getD 1 0, c.eOri.getD 2 0, c.eOri.getD 3 0,
      c.eOri.getD 4 0, c.eOri.getD 5 0, c.eOri.getD 6 0, c.eOri.getD 7 0,
      c.eOri.getD 8 0, c.eOri.getD 9 0, c.eOri.getD 10 0, c.eOri.getD 11 0] :=
  (map_range_getD_self h).symm

theorem cOri_literal {c : Cube} (h : c.cOri.length = 8) :
    c.cOri = [c.cOri.getD 0 0, c.cOri.getD 1 0, c.cOri.getD 2 0, c.cOri.getD 3 0,
      c.cOri.getD 4 0, c.cOri.getD 5 0, c.cOri.getD 6 0, c.cOri.getD 7 0] :=
  (map_range_getD_self h).symm

theorem valid_eOri_facts {c : Cube} (hv : isValidCube c = true) :
    (∀ x ∈ c.eOri, x < 2) ∧ (c.eOri.sum) % 2 = 0 := by
  unfold isValidCube at hv
  simp only [Bool.and_eq_true] at hv
  constructor
  · have hg := hv.2
    simp only [Bool.not_eq_true', List.any_eq_false, decide_eq_true_eq] at hg
    intro x hx
    have := hg x hx
    omega
  · have he := hv.1.1.2
    simp only [beq_iff_eq] at he
    rw [foldl_add_eq_add_sum] at he
    simpa using he

theorem valid_cOri_facts {c : Cube} (hv : isValidCube c = true) :
    (∀ x ∈ c.cOri, x < 3) ∧ (c.cOri.sum) % 3 = 0 := by
  unfold isValidCube at hv
  simp only [Bool.and_eq_true] at hv
  constructor
  · have hg := hv.1.2
    simp only [Bool.not_eq_true', List.any_eq_false, decide_eq_true_eq] at hg
    intro x hx
    have := hg x hx
    omega
  · have hd := hv.1.1.1.2
    simp only [beq_iff_eq] at hd
    rw [foldl_add_eq_add_sum] at hd
    simpa using hd

/-- Decoding the eo coordinate of a valid cube reproduces its `eOri` exactly
(the parity bit written at slot 11 matches because the flips sum to 0 mod 2). -/
theorem eo_recover {c : Cube} (hw : wellFormed c) (hv : isValidCube c = true) :
    (setEdgeOrientation solvedCube (getEdgeOrientation c)).eOri = c.eOri := by
  obtain ⟨hb, hs⟩ := valid_eOri_facts hv
  have hlen := hw.2.2.2
  have hget : ∀ i, i < 12 → c.eOri.getD i 0 < 2 := fun i hi =>
    hb _ (getD_mem_of_lt (by omega))
  refine eo_recover_core c _ _ _ _ _ _ _ _ _ _ _ _ (eOri_literal hlen)
    ⟨hget 0 (by omega), hget 1 (by omega), hget 2 (by omega), hget 3 (by omega),
     hget 4 (by omega), hget 5 (by omega), hget 6 (by omega), hget 7 (by omega),
     hget 8 (by omega), hget 9 (by omega), hget 10 (by omega), hget 11 (by omega)⟩ ?_
  have hexp := eOri_literal hlen
  rw [hexp] at hs
  simp only [List.sum_cons, List.sum_nil] at hs
  omega

/-- Decoding the co coordinate of a valid cube reproduces its `cOri` exactly
(the checksum twist written at slot 7 matches because the twists sum to 0 mod 3). -/
theorem co_recover {c : Cube} (hw : wellFormed c) (hv : isValidCube c = true) :
    (setCornerOrientation solvedCube (getCornerOrientation c)).cOri = c.cOri := by
  obtain ⟨hb, hs⟩ := valid_cOri_facts hv
  have hlen := hw.2.1
  have hget : ∀ i, i < 8 → c.cOri.getD i 0 < 3 := fun i hi =>
    hb _ (getD_mem_of_lt (by omega))
  refine co_recover_core c _ _ _ _ _ _ _ _ (cOri_literal hlen)
    ⟨hget 0 (by omega), hget 1 (by omega), hget 2 (by omega), hget 3 (by omega),
     hget 4 (by omega), hget 5 (by omega), hget 6 (by omega), hget 7 (by omega)⟩ ?_
  have hexp := cOri_literal hlen
  rw [hexp] at hs
  simp only [List.sum_cons, List.sum_nil] at hs
  omega

/-- Decoding the cp coordinate of a valid cube reproduces its `cPerm` exactly. -/
theorem cp_recover {c : Cube} (hw : wellFormed c) (hv : isValidCube c = true) :
    (setCornerPermutation solvedCube (getCornerPermutation c)).cPerm = c.cPerm := by
  unfold setCornerPermutation getCornerPermutation
  exact indexToPermutation_permutationToIndex (valid_cPerm_perm_range hw hv)

theorem getEO_applyMove_congr {c1 c2 : Cube} (mv : MoveTable) (h : c1.eOri = c2.eOri) :
    getEdgeOrientation (applyMove c1 mv) = getEdgeOrientation (applyMove c2 mv) := by
  unfold getEdgeOrientation applyMove
  simp only
  rw [h]

theorem getCO_applyMove_congr {c1 c2 : Cube} (mv : MoveTable) (h : c1.cOri = c2.cOri) :
    getCornerOrientation (applyMove c1 mv) = getCornerOrientation (applyMove c2 mv) := by
  unfold getCornerOrientation applyMove
  simp only
  rw [h]

theorem getCP_applyMove_congr {c1 c2 : Cube} (mv : MoveTable) (h : c1.cPerm = c2.cPerm) :
    getCornerPermutation (applyMove c1 mv) = getCornerPermutation (applyMove c2 mv) := by
  unfold getCornerPermutation applyMove
  simp only
  rw [h]

/-- C1 (amended): the eo, co and cp coordinates are genuine quotient
operations — for every well-formed valid cube and every move index below 18,
encoding after the move equals the move-table entry built from the decoded
representative (`buildCoordinateMoveTable`).  The eslice coordinate of
`coordinates.ts` (misplaced-count version) and the udep and ep coordinates
fail this on valid cubes: see the counterexample. -/
theorem c1_coordinate_equivariance (c : Cube) (m : Nat) (hm : m < 18)
    (hw : wellFormed c) (hv : isValidCube c = true) :
    getEdgeOrientation (applyMove c (getMoveByIndex m)) =
      buildCoordinateMoveTableEntry getEdgeOrientation setEdgeOrientation m
        (getEdgeOrientation c) ∧
    getCornerOrientation (applyMove c (getMoveByIndex m)) =
      buildCoordinateMoveTableEntry getCornerOrientation setCornerOrientation m
        (getCornerOrientation c) ∧
    getCornerPermutation (applyMove c (getMoveByIndex m)) =
      buildCoordinateMoveTableEntry getCornerPermutation setCornerPermutation m
        (getCornerPermutation c) := by
  unfold buildCoordinateMoveTableEntry
  exact ⟨(getEO_applyMove_congr _ (eo_recover hw hv)).symm,
    (getCO_applyMove_congr _ (co_recover hw hv)).symm,
    (getCP_applyMove_congr _ (cp_recover hw hv)).symm⟩

/-- Witness for C1 at the solved cube and move `U`. -/
theorem c1_coordinate_equivariance_witness :
    getEdgeOrientation (applyMove solvedCube (getMoveByIndex 0)) =
      buildCoordinateMoveTableEntry getEdgeOrientation setEdgeOrientation 0
        (getEdgeOrientation solvedCube) ∧
    getCornerOrientation (applyMove solvedCube (getMoveByIndex 0)) =
      buildCoordinateMoveTableEntry getCornerOrientation setCornerOrientation 0
        (getCornerOrientation solvedCube) ∧
    getCornerPermutation (applyMove solvedCube (getMoveByIndex 0)) =
      buildCoordinateMoveTableEntry getCornerPermutation setCornerPermutation 0
        (getCornerPermutation solvedCube) :=
  c1_coordinate_equivariance solvedCube 0 (by decide) (by decide) (by decide)

/-- The valid cube one `F` turn from solved. -/
def cubeF : Cube := applyMove solvedCube moveF

/-- The valid cube one `R` turn from solved. -/
def cubeR : Cube := applyMove solvedCube moveR

/-- C1 counterexample: on valid cubes the misplaced-count eslice coordinate of
`coordinates.ts` (under move `F`, index 6) and the udep and ep coordinates of
`part_003` (under move `R`, index 3) are not equivariant: encoding after the
move disagrees with the move-table entry at the encoded value. -/
theorem c1_counterexample :
    isValidCube cubeF = true ∧
    Coords5.getESlice (applyMove cubeF (getMoveByIndex 6)) = 1 ∧
    buildCoordinateMoveTableEntry Coords5.getESlice Coords5.setESlice 6
      (Coords5.getESlice cubeF) = 2 ∧
    isValidCube cubeR = true ∧
    Coords495.getUDEdgePermutation (applyMove cubeR (getMoveByIndex 3)) = 21024 ∧
    buildCoordinateMoveTableEntry Coords495.getUDEdgePermutation
      Coords495.setUDEdgePermutation 3 (Coords495.getUDEdgePermutation cubeR) = 30258 ∧
    Coords495.getESlicePermutation (applyMove cubeR (getMoveByIndex 3)) = 21 ∧
    buildCoordinateMoveTableEntry Coords495.getESlicePermutation
      Coords495.setESlicePermutation 3 (Coords495.getESlicePermutation cubeR) = 9 := by
  decide

end CCS
